import Mathlib

/-!
Verification of the sip code generator (`sipbuild/generator/outputs/code/code.py`
and `sipbuild/generator/build_system_extension.py`) against its natural-language
specification.  Python functions are shallowly embedded as Lean functions; the
side effects of writing to a source file are embedded as an explicit list of the
string chunks passed to `sf.write`, and mutable fields become explicit state
passing.  Where a helper lives outside the embedded files (string formatters,
the upstream specification graph), its output is taken as an opaque parameter;
such places are marked in the doc comments.
-/

namespace Sip

/- ----------------------------------------------------------------------
   The name cache (`_name_cache_as_list`, code.py:1287-1326, and the string
   pool emitted by `_name_cache`, code.py:1329-1350).
   ---------------------------------------------------------------------- -/

/-- One entry of the module's name cache.  Embeds the upstream `CachedName`
objects (their class is defined by the resolver, outside the embedded files):
a name string, the `used` flag set during generation, and the two fields
assigned by `_name_cache_as_list` (`is_substring` and `offset`), which start
out unset (`false` / `0`). -/
structure CachedName where
  name : String
  used : Bool
  is_substring : Bool := false
  offset : Nat := 0
deriving DecidableEq, Repr

/-- Lexicographic comparison of code-point sequences; embeds Python string
`<=` as used by `sorted(..., key=lambda k: k.name)`. -/
def lexLE : List Char → List Char → Bool
  | [], _ => true
  | _ :: _, [] => false
  | a :: as, b :: bs => if a = b then lexLE as bs else decide (a < b)

/-- The order in which `_name_cache_as_list` arranges the cache: descending
name length first, ascending name second.  The source stores the cache as a
dict keyed by name length and concatenates `sorted(name_cache.keys(),
reverse=True)` bucket by bucket, each bucket sorted by name; over the flat
list of entries that is exactly a stable sort by this comparator. -/
def cacheLE (a b : CachedName) : Bool :=
  decide (b.name.data.length < a.name.data.length) ||
    (decide (a.name.data.length = b.name.data.length) && lexLE a.name.data b.name.data)

/-- The sorted name-cache list (first half of `_name_cache_as_list`). -/
def sortedCache (cache : List CachedName) : List CachedName :=
  List.insertionSort (fun a b => cacheLE a b = true) cache

/-- The inner scan of `_name_cache_as_list`: walk the previously placed
entries looking for a used, non-substring entry strictly longer than the
current name whose tail equals it; stop at the first entry whose length is
not larger (the `break` in the source; entries after it are never longer,
the list being sorted). `str.endswith` becomes `List.isSuffixOf` on the
code points. -/
def findSuffixHost (name_data : List Char) : List CachedName → Option CachedName
  | [] => none
  | p :: rest =>
    if p.name.data.length ≤ name_data.length then none
    else if !p.used || p.is_substring then findSuffixHost name_data rest
    else if name_data.isSuffixOf p.name.data then some p
    else findSuffixHost name_data rest

/-- One iteration of the offset-assignment loop of `_name_cache_as_list`:
an unused entry is skipped; a used entry either becomes a suffix reference
into an earlier placed entry or is placed at the running offset, which then
advances by the name length plus one (for the terminator byte). -/
def placeName (placed : List CachedName) (offset : Nat) (c : CachedName) :
    CachedName × Nat :=
  if c.used = false then (c, offset)
  else
    match findSuffixHost c.name.data placed with
    | some p =>
        ({ c with is_substring := true,
                  offset := p.offset + p.name.data.length - c.name.data.length },
         offset)
    | none => ({ c with offset := offset }, offset + c.name.data.length + 1)

/-- The offset-assignment loop of `_name_cache_as_list`, processing the
sorted list front to back while accumulating the already-processed prefix. -/
def assignOffsets : List CachedName → List CachedName → Nat → List CachedName
  | [], placed, _ => placed
  | c :: rest, placed, offset =>
      let pc := placeName placed offset c
      assignOffsets rest (placed ++ [pc.1]) pc.2

/-- `_name_cache_as_list`: sort the cache, then assign string-pool offsets. -/
def name_cache_as_list (cache : List CachedName) : List CachedName :=
  assignOffsets (sortedCache cache) [] 0

/-- The byte content of the packed string pool written by `_name_cache`:
every used, non-substring entry contributes its characters followed by a
0 terminator, in list order. -/
def sipStrings (l : List CachedName) : List Char :=
  (l.filter (fun c => c.used && !c.is_substring)).flatMap
    (fun c => c.name.data ++ [Char.ofNat 0])

/-- Reading a name back from the packed pool: start at the given offset and
take characters up to the 0 terminator. -/
def readName (pool : List Char) (offset : Nat) : List Char :=
  (pool.drop offset).takeWhile (fun ch => decide (ch ≠ Char.ofNat 0))

/-- `p` can serve as the suffix host of `c`: placed, used, not itself a
shared suffix, strictly longer, and ending in `c`'s name. -/
def isHostOf (p c : CachedName) : Prop :=
  p.used = true ∧ p.is_substring = false ∧
    c.name.data.length < p.name.data.length ∧ c.name.data <:+ p.name.data

/-- The scenario of the specification: exactly the used names `x`, `yx`,
`zyx` in the cache. -/
def xyzCache : List CachedName :=
  [{ name := "x", used := true }, { name := "yx", used := true },
   { name := "zyx", used := true }]

/-- Every used name is recoverable: from its recorded offset, the pool
continues with the name's characters followed by the 0 terminator. -/
def RecProp (L : List CachedName) : Prop :=
  ∀ c ∈ L, c.used = true →
    ∃ t, (sipStrings L).drop c.offset = c.name.data ++ Char.ofNat 0 :: t

/-- Every used name that is not a shared suffix sits at the running offset:
its offset equals the number of pool bytes contributed by the entries
before it. -/
def RunProp (L : List CachedName) : Prop :=
  ∀ i (h : i < L.length), (L.get ⟨i, h⟩).used = true →
    (L.get ⟨i, h⟩).is_substring = false →
    (L.get ⟨i, h⟩).offset = (sipStrings (L.take i)).length

/-- A used name is marked as a shared suffix exactly when some earlier
placed, used, non-suffix, strictly longer name ends in it. -/
def HostIffProp (L : List CachedName) : Prop :=
  ∀ i (h : i < L.length), (L.get ⟨i, h⟩).used = true →
    ((L.get ⟨i, h⟩).is_substring = true ↔
      ∃ j, ∃ hj : j < i, isHostOf (L.get ⟨j, Nat.lt_trans hj h⟩) (L.get ⟨i, h⟩))

/-- A used name marked as a shared suffix takes its offset from a host:
the host's offset plus the difference of the lengths. -/
def HostOffsetProp (L : List CachedName) : Prop :=
  ∀ i (h : i < L.length), (L.get ⟨i, h⟩).used = true →
    (L.get ⟨i, h⟩).is_substring = true →
    ∃ j, ∃ hj : j < i, isHostOf (L.get ⟨j, Nat.lt_trans hj h⟩) (L.get ⟨i, h⟩) ∧
      (L.get ⟨i, h⟩).offset =
        (L.get ⟨j, Nat.lt_trans hj h⟩).offset +
          (L.get ⟨j, Nat.lt_trans hj h⟩).name.data.length -
          (L.get ⟨i, h⟩).name.data.length

/- ----------------------------------------------------------------------
   `BuildSystemExtension.get_extension_data`
   (build_system_extension.py:24-46).
   ---------------------------------------------------------------------- -/

/-- Lookup in a Python dict keyed by extension name, embedded as an
association list. -/
def dictLookup {Data : Type} (m : List (String × Data)) (k : String) : Option Data :=
  (m.find? (fun kv => kv.1 == k)).map (fun kv => kv.2)

/-- Assignment `d[k] = v` on a Python dict: overwrite the binding if the key
is present, otherwise append a new binding. -/
def dictInsert {Data : Type} : List (String × Data) → String → Data → List (String × Data)
  | [], k, v => [(k, v)]
  | kv :: rest, k, v =>
      if kv.1 == k then (k, v) :: rest else kv :: dictInsert rest k v

/-- The outcome of one `get_extension_data` call: the returned value, the
object's `extension_data` attribute afterwards, and how many times the
factory was invoked. -/
structure GetExtensionDataResult (Data : Type) where
  result : Option Data
  extension_data : Option (List (String × Data))
  factory_calls : Nat
deriving DecidableEq, Repr

/-- `BuildSystemExtension.get_extension_data`: `name` is the extension's
name (`self.name`), `extension_data` the extendable object's current side
table (`None` if never created), `factory` the optional factory callable.
Mirrors the source: a missing side table is created only when a factory is
supplied; an existing entry under the extension's name is returned as is;
otherwise the factory result is stored under the extension's name. -/
def get_extension_data {Data : Type} (name : String)
    (extension_data : Option (List (String × Data)))
    (factory : Option (Unit → Data)) : GetExtensionDataResult Data :=
  match extension_data with
  | none =>
      match factory with
      | none => ⟨none, none, 0⟩
      | some f => ⟨some (f ()), some (dictInsert [] name (f ())), 1⟩
  | some m =>
      match dictLookup m name with
      | some d => ⟨some d, some m, 0⟩
      | none =>
          match factory with
          | none => ⟨none, some m, 0⟩
          | some f => ⟨some (f ()), some (dictInsert m name (f ())), 1⟩

/-- Lookup through the optional side table (no table at all behaves as an
empty one). -/
def lookupState {Data : Type} (s : Option (List (String × Data))) (k : String) :
    Option Data :=
  match s with
  | none => none
  | some m => dictLookup m k

/- ----------------------------------------------------------------------
   The argument model shared by the virtual-dispatch and table claims.
   ---------------------------------------------------------------------- -/

/-- The argument-kind tags used by the embedded functions (the upstream
`ArgumentType` enumeration; only the members the embedded code inspects are
needed, plus a representative rest). -/
inductive ArgumentType where
  | CLASS | MAPPED | ENUM | VOID | STRUCT | UNION | FAKE_VOID | TEMPLATE
  | ASCII_STRING | LATIN1_STRING | UTF8_STRING | SSTRING | USTRING | STRING
  | WSTRING
  | BYTE | SBYTE | UBYTE | USHORT | SHORT | CINT | INT | UINT | BOOL | CBOOL
  | LONG | ULONG | LONGLONG | ULONGLONG | FLOAT | CFLOAT | DOUBLE | CDOUBLE
  | SIZE | PYOBJECT | PYTUPLE | PYLIST | PYDICT | PYSLICE | PYTYPE | CAPSULE
deriving DecidableEq, Repr

/-- One argument (or result) of a native signature, with the fields the
embedded generator code reads.  `derefs` is `len(arg.derefs)`; `gto` is the
output of `get_gto_name(arg.definition)` and `cap` the capsule name, both
opaque formatter outputs; `key` is the kept-reference key field mutated
during generation. -/
structure Argument where
  type : ArgumentType
  is_reference : Bool := false
  derefs : Nat := 0
  is_out : Bool := false
  key : Int := 0
  gto : String := ""
  cap : String := ""
deriving DecidableEq, Repr

/-- `_keep_py_reference` (code.py:5645-5650): string-typed values passed by
pointer and not by reference need an extra Python reference kept. -/
def keep_py_reference (arg : Argument) : Bool :=
  (arg.type == ArgumentType.ASCII_STRING || arg.type == ArgumentType.LATIN1_STRING ||
    arg.type == ArgumentType.UTF8_STRING || arg.type == ArgumentType.USTRING ||
    arg.type == ArgumentType.SSTRING || arg.type == ArgumentType.STRING) &&
  !arg.is_reference && decide (0 < arg.derefs)

/- ----------------------------------------------------------------------
   Kept-reference key allocation in the virtual catcher
   (`_virtual_handler_call`, code.py:3755-3855) and the matching extra
   parameters of the shared handler (`_virtual_handler`, code.py:4159-4174,
   and `_add_parse_result_extra_params`, code.py:4386-4407).
   ---------------------------------------------------------------------- -/

/-- The key-allocation pass of `_virtual_handler_call` over the arguments:
each out-argument whose reference must be kept is assigned the current
`module.next_key`, which is decremented by one per allocation (the source
stores the key in `arg.key`; the first component returns the arguments with
keys set). -/
def setArgKeys : List Argument → Int → List Argument × Int
  | [], k => ([], k)
  | a :: rest, k =>
      if a.is_out && keep_py_reference a then
        let p := setArgKeys rest (k - 1)
        ({ a with key := k } :: p.1, p.2)
      else
        let p := setArgKeys rest k
        (a :: p.1, p.2)

/-- Key allocation for the returned value (`result.key = module.next_key;
module.next_key -= 1` when the result's reference must be kept). -/
def setResultKey (result : Option Argument) (k : Int) : Option Argument × Int :=
  match result with
  | some r =>
      if keep_py_reference r then (some { r with key := k }, k - 1) else (some r, k)
  | none => (none, k)

/-- The literal keys the catcher passes as extra integer arguments, in the
order the source writes them: the result key first (when kept), then the
kept out-argument keys in signature order, read back from the fields the
allocation pass set. -/
def catcherPassedKeys (result : Option Argument) (args : List Argument)
    (next_key : Int) : List Int :=
  let pr := setResultKey result next_key
  let pa := setArgKeys args pr.2
  (match pr.1 with
   | some r => if keep_py_reference r then [r.key] else []
   | none => []) ++
    (pa.1.filter (fun a => a.is_out && keep_py_reference a)).map (fun a => a.key)

/-- The new `module.next_key` after one catcher's allocations. -/
def catcherNextKey (result : Option Argument) (args : List Argument)
    (next_key : Int) : Int :=
  (setArgKeys args (setResultKey result next_key).2).2

/-- How many keys one catcher consumes: one for a kept returned value plus
one per kept out-argument. -/
def keptCount (result : Option Argument) (args : List Argument) : Nat :=
  (match result with
   | some r => if keep_py_reference r then 1 else 0
   | none => 0) +
    (args.filter (fun a => a.is_out && keep_py_reference a)).length

/-- All keys allocated over a module's sequence of virtual catchers, with
the final `module.next_key`. -/
def moduleCatcherKeys : List (Option Argument × List Argument) → Int → List Int × Int
  | [], k => ([], k)
  | (res, as) :: calls, k =>
      let p := moduleCatcherKeys calls (catcherNextKey res as k)
      (catcherPassedKeys res as k ++ p.1, p.2)

/-- The extra `int` key parameters of the shared handler's signature
(`_virtual_handler`, code.py:4159-4174): `sipResKey` when the returned
value's reference is kept, then one `<name>Key` per kept out-argument of
the handler's C++ signature, named by the argument formatter (`argName`,
standing for `fmt_argument_as_name`, which lives outside the embedded
files). -/
def handlerKeyParamsFrom (argName : Nat → String) : Nat → List Argument → List String
  | _, [] => []
  | i, a :: rest =>
      if a.is_out && keep_py_reference a then
        (argName i ++ "Key") :: handlerKeyParamsFrom argName (i + 1) rest
      else handlerKeyParamsFrom argName (i + 1) rest

def handlerKeyParams (result : Option Argument) (cpp_args : List Argument)
    (argName : Nat → String) : List String :=
  (match result with
   | some r => if keep_py_reference r then ["sipResKey"] else []
   | none => []) ++ handlerKeyParamsFrom argName 0 cpp_args

/-- `_add_parse_result_extra_params` (code.py:4386-4407): the extra
parameters passed to `sipParseResultEx` for one value; a negative `arg_nr`
marks the returned value (`sipResKey`). -/
def add_parse_result_extra_params (a : Argument) (argName : Nat → String)
    (arg_nr : Int) : List String :=
  if a.type = ArgumentType.CLASS ∨ a.type = ArgumentType.MAPPED ∨
      a.type = ArgumentType.ENUM then [a.gto]
  else if a.type = ArgumentType.PYTUPLE then ["&PyTuple_Type"]
  else if a.type = ArgumentType.PYLIST then ["&PyList_Type"]
  else if a.type = ArgumentType.PYDICT then ["&PyDict_Type"]
  else if a.type = ArgumentType.PYSLICE then ["&PySlice_Type"]
  else if a.type = ArgumentType.PYTYPE then ["&PyType_Type"]
  else if a.type = ArgumentType.CAPSULE then ["\"" ++ a.cap ++ "\""]
  else if keep_py_reference a then
    (if arg_nr < 0 then ["sipResKey"] else [argName arg_nr.toNat ++ "Key"])
  else []

/-- The key parameters the handler forwards to the result-parsing call: the
extra parameters contributed for the returned value and for each
out-argument of the handler's Python signature, restricted to the
kept-reference contributions (for a kept value the contribution is exactly
its key parameter, the earlier branches of
`_add_parse_result_extra_params` being mutually exclusive with
`_keep_py_reference`). -/
def parseKeyParamsFrom (argName : Nat → String) : Nat → List Argument → List String
  | _, [] => []
  | i, a :: rest =>
      if a.is_out && keep_py_reference a then
        add_parse_result_extra_params a argName (Int.ofNat i) ++
          parseKeyParamsFrom argName (i + 1) rest
      else parseKeyParamsFrom argName (i + 1) rest

def parseKeyParams (result : Option Argument) (py_args : List Argument)
    (argName : Nat → String) : List String :=
  (match result with
   | some r => if keep_py_reference r then
        add_parse_result_extra_params r argName (-1) else []
   | none => []) ++ parseKeyParamsFrom argName 0 py_args

/-- A run of `n` consecutive strictly decreasing keys starting at `k`:
`[k, k - 1, ...]`. -/
def keysRun (k : Int) : Nat → List Int
  | 0 => []
  | n + 1 => k :: keysRun (k - 1) n

/-- The number of keys a module's virtual catchers consume in total. -/
def totalKept (calls : List (Option Argument × List Argument)) : Nat :=
  (calls.map (fun c => keptCount c.1 c.2)).sum

/- ----------------------------------------------------------------------
   Encoded cross-module type references (`_encoded_type`,
   code.py:1548-1565).
   ---------------------------------------------------------------------- -/

/-- The interface file of a wrapped class: its per-module type number and
the identity of its owning module (`is` comparisons on module objects
become comparisons of these identities). -/
structure EncIfaceFile where
  type_nr : Nat
  module : Nat
deriving DecidableEq, Repr

/-- The parts of a module `_encoded_type` reads: its identity and the
identities of `module.all_imports` in order. -/
structure EncModule where
  id : Nat
  all_imports : List Nat
deriving DecidableEq, Repr

/-- The `for module_nr, imported_module in enumerate(module.all_imports)`
scan: index of the first import equal to the class's owning module, if
any. -/
def importIndex : List Nat → Nat → Option Nat
  | [], _ => none
  | m :: rest, target =>
      if m = target then some 0 else (importIndex rest target).map (fun i => i + 1)

/-- The field list `_encoded_type` builds: the type number; then `255` for
a type of the current module, or the index of the owning module in the
list of imports — or, when the owning module is absent from that list,
nothing at all, the loop simply falling through; then the last-in-group
flag (`str(int(last))`). -/
def encoded_type_fields (module : EncModule) (iface : EncIfaceFile) (last : Bool) :
    List String :=
  let base := [toString iface.type_nr]
  let with_module :=
    if iface.module = module.id then base ++ ["255"]
    else
      match importIndex module.all_imports iface.module with
      | some nr => base ++ [toString nr]
      | none => base
  with_module ++ [if last then "1" else "0"]

/-- `_encoded_type`: the brace-wrapped, comma-joined field list. -/
def encoded_type (module : EncModule) (iface : EncIfaceFile) (last : Bool) : String :=
  "\x7b" ++ String.intercalate ", " (encoded_type_fields module iface last) ++ "\x7d"

/- ----------------------------------------------------------------------
   Splitting a module into parts (`_module_code`, code.py:455-530).
   ---------------------------------------------------------------------- -/

/-- The bits of an interface file `_module_code` reads when distributing
interface units over part files: its owning module and whether it is an
exception interface file (those are not distributed). -/
structure IfaceFileUnit where
  module : Nat
  is_exception : Bool := false
deriving DecidableEq, Repr

/-- The interface units of the module being generated, in specification
order (the loop filter `iface_file.module is module and iface_file.type is
not IfaceFileType.EXCEPTION`). -/
def module_units (iface_files : List IfaceFileUnit) (module_id : Nat) :
    List IfaceFileUnit :=
  iface_files.filter (fun f => f.module == module_id && !f.is_exception)

/-- `nr_files`: one for the module-level source file plus one per interface
unit of this module. -/
def nr_files (iface_files : List IfaceFileUnit) (module_id : Nat) : Nat :=
  1 + (module_units iface_files module_id).length

/-- `max_per_part = (nr_files + parts - 1) // parts`. -/
def max_per_part (nrf parts : Nat) : Nat := (nrf + parts - 1) / parts

/-- The part-assignment loop of `_module_code`: `files_in_part` starts at 1
(the module-level code already occupies the first part) and `this_part` at
0; when the current part is full a new part is opened. -/
def partLoop (mpp : Nat) : List IfaceFileUnit → Nat → Nat → List (IfaceFileUnit × Nat)
  | [], _, _ => []
  | u :: rest, files_in_part, this_part =>
      if files_in_part = mpp then
        (u, this_part + 1) :: partLoop mpp rest 1 (this_part + 1)
      else
        (u, this_part) :: partLoop mpp rest (files_in_part + 1) this_part

/-- Which part file each interface unit of the module is generated into. -/
def part_assignment (iface_files : List IfaceFileUnit) (module_id parts : Nat) :
    List (IfaceFileUnit × Nat) :=
  partLoop (max_per_part (nr_files iface_files module_id) parts)
    (module_units iface_files module_id) 1 0

/-- Modelled from the spec: "split into N parts by round-robin over
interface units" — unit `i` would go into part `i mod N`. -/
def round_robin_assignment (units : List IfaceFileUnit) (parts : Nat) :
    List (IfaceFileUnit × Nat) :=
  (List.range units.length).zip units |>.map (fun p => (p.2, p.1 % parts))

/-- Three interface units of module 0, to be split into two parts. -/
def demoUnits : List IfaceFileUnit :=
  [{ module := 0 }, { module := 0 }, { module := 0 }]

/- ----------------------------------------------------------------------
   Method members and the Python method table (`_get_method_members`,
   code.py:2324-2351, `_get_sorted_members`, code.py:2367-2371,
   `_py_method_table`, code.py:2374-2416) and the instance tables
   (`_write_instances_table`, code.py:6173-6198, `_optional_ptr`,
   code.py:1090-1093, and the descriptor wiring at code.py:5260-5263).
   ---------------------------------------------------------------------- -/

/-- Access specifiers of the upstream model (`AccessSpecifier`). -/
inductive AccessSpecifier where
  | PUBLIC | PROTECTED | PRIVATE
deriving DecidableEq, Repr

/-- One overload, with the fields `_get_method_members` reads. -/
structure Overload where
  access_specifier : AccessSpecifier
  is_abstract : Bool := false
  pyqt_is_signal : Bool := false
deriving DecidableEq, Repr

/-- One member (a group of overloads under one exposed name), with the
fields the method-table builders read.  `no_arg_parse` embeds the source's
`no_arg_parser` flag; `has_docstring` is the value of
`has_member_docstring(bindings, _callable_class_overloads(member))`
(docstrings.py), taken as a precomputed input. -/
structure Member where
  py_name : CachedName
  py_slot : Option Nat := none
  no_arg_parse : Bool := false
  allow_keyword_args : Bool := false
  overloads : List Overload := []
  has_docstring : Bool := false
deriving DecidableEq, Repr

/-- `get_normalised_cached_name` (utils.py:33-42): template-looking names
use their pool offset; otherwise C++/Python scope separators become
underscores (`str.replace` on the single characters `:` and `.`). -/
def get_normalised_cached_name (cached_name : CachedName) : String :=
  if cached_name.name.data.contains '<' then toString cached_name.offset
  else String.mk (cached_name.name.data.map
    (fun ch => if ch = ':' ∨ ch = '.' then '_' else ch))

/-- `cached_name_ref` (utils.py:17-22). -/
def cached_name_ref (cached_name : CachedName) (as_nr : Bool) : String :=
  (if as_nr then "sipNameNr_" else "sipName_") ++ get_normalised_cached_name cached_name

/-- Whether one overload makes its member worth a `PyMethodDef` entry
(the inner loop of `_get_method_members`): not a signal and not an
abstract private function. -/
def overload_needs_entry (o : Overload) : Bool :=
  !o.pyqt_is_signal &&
    !(decide (o.access_specifier = AccessSpecifier.PRIVATE) && o.is_abstract)

/-- The member-selection loop of `_get_method_members`: skip slot members;
keep a member as soon as one overload needs an entry. -/
def get_method_members_loop : List Member → List Member
  | [] => []
  | m :: rest =>
      if m.py_slot.isSome then get_method_members_loop rest
      else if m.overloads.any overload_needs_entry then
        m :: get_method_members_loop rest
      else get_method_members_loop rest

/-- `_get_sorted_members`: sort by the exposed Python name. -/
def get_sorted_members (members : List Member) : List Member :=
  List.insertionSort
    (fun a b => lexLE a.py_name.name.data b.py_name.name.data = true) members

/-- `_get_method_members`. -/
def get_method_members (members : List Member) : List Member :=
  get_sorted_members (get_method_members_loop members)

/-- The four fields of one `PyMethodDef` row written by
`_py_method_table`. -/
def py_method_fields (scope_name : String) (m : Member) : List String :=
  let kw := m.no_arg_parse || m.allow_keyword_args
  let cast := if kw then "SIP_MLMETH_CAST(" else ""
  let cast_suffix := if kw then ")" else ""
  let flags := if kw then "|METH_KEYWORDS" else ""
  let docstring := if m.has_docstring then "doc_" ++ scope_name ++ "_" ++ m.py_name.name
    else "SIP_NULLPTR"
  [cached_name_ref m.py_name false,
   cast ++ "meth_" ++ scope_name ++ "_" ++ m.py_name.name ++ cast_suffix,
   "METH_VARARGS" ++ flags,
   docstring]

/-- One row of the method table (the trailing comma is omitted on the last
row). -/
def py_method_row (scope_name : String) (m : Member) (is_last : Bool) : String :=
  "    \x7b" ++ String.intercalate ", " (py_method_fields scope_name m) ++ "\x7d" ++
    (if is_last then "" else ",") ++ "\n"

/-- The rows of the method table in order. -/
def py_method_rows (scope_name : String) : List Member → List String
  | [] => []
  | [m] => [py_method_row scope_name m true]
  | m :: rest => py_method_row scope_name m false :: py_method_rows scope_name rest

/-- `_py_method_table`: returns the entry count and the chunks written —
nothing at all for an empty member list, otherwise the header, one row per
member and the closing brace; note there is no terminator row. -/
def py_method_table (members : List Member) (scope_name : String) :
    Nat × List String :=
  match members with
  | [] => (0, [])
  | _ :: _ =>
      (members.length,
        ("\n\nstatic PyMethodDef methods_" ++ scope_name ++ "[] = \x7b\n") ::
          (py_method_rows scope_name members ++ ["\x7d;\n"]))

/-- `_write_instances_table`: no output and `False` for an empty instance
list; otherwise the declaration header, one row per instance and a final
all-zero sentinel row (sharing its chunk with the closing brace), with
`True`.  `declaration_template` stands for the caller-supplied template
already specialised by `str.format`. -/
def write_instances_table (scope : Option String) (instances : List (List String))
    (declaration_template : String → String → String) : Bool × List String :=
  match instances with
  | [] => (false, [])
  | inst0 :: _ =>
      let dict_type := match scope with | none => "module" | some _ => "type"
      let suffix := match scope with | none => "" | some s => "_" ++ s
      let declaration := declaration_template dict_type suffix
      let rows := instances.map (fun inst =>
        "    \x7b" ++ String.intercalate ", " inst ++ "\x7d,\n")
      let sentinels := String.intercalate ", " (List.replicate inst0.length "0")
      (true,
        ("\n\n" ++ declaration ++ " = \x7b\n") :: rows ++
          ["    \x7b" ++ sentinels ++ "\x7d\n\x7d;\n"])

/-- `_optional_ptr`. -/
def optional_ptr (is_ptr : Bool) (name : String) : String :=
  if is_ptr then name else "SIP_NULLPTR"

/-- The `nr_methods` wiring of the class descriptor (code.py:5260-5263):
an empty table is referenced as `0, SIP_NULLPTR`. -/
def method_table_ref (nr_methods : Nat) (klass_name : String) : String :=
  if nr_methods = 0 then "0, SIP_NULLPTR"
  else toString nr_methods ++ ", methods_" ++ klass_name

/-- A field counts as a zero/null terminator field. -/
def null_field (s : String) : Bool := s == "0" || s == "SIP_NULLPTR"

/-- A single public method `foo` with no special flags. -/
def demoMember : Member :=
  { py_name := { name := "foo", used := true },
    overloads := [{ access_specifier := AccessSpecifier.PUBLIC }] }

/- ----------------------------------------------------------------------
   Variables and enum members in the instance tables
   (`_variables_in_scope`, code.py:6161-6170; `_class_instances`,
   code.py:1729-1773; `_types_inline`, code.py:1680-1726;
   `_int_instances`, code.py:1846-1900; `_enum_member_table`,
   code.py:1568-1622; the `nr_enum_members` branch of `_module_code`,
   code.py:758-761).
   ---------------------------------------------------------------------- -/

/-- The type of a variable, with the fields the table builders read.
`enum_named` is whether `type.definition.fq_cpp_name` is not `None` (only
meaningful when `type` is `ENUM`). -/
structure VarType where
  type : ArgumentType
  derefs : Nat := 0
  is_const : Bool := false
  enum_named : Bool := false
deriving DecidableEq, Repr

/-- A module- or class-scoped variable.  `py_scope` is
`get_py_scope(variable.scope)`, modelled from the spec as the resolved
Python scope identity (the helper lives in generator/utils.py, outside the
embedded files); `fq_cpp_name` is the formatted C++ name, opaque. -/
structure Variable where
  py_name : CachedName
  fq_cpp_name : String := ""
  type : VarType
  module : Nat
  py_scope : Option Nat := none
  needs_handler : Bool := false
  access_code : Option String := none
deriving DecidableEq, Repr

/-- One enum member; `value_str` is the output of `_enum_member`, an opaque
formatted value. -/
structure WEnumMember where
  py_name : CachedName
  value_str : String := ""
deriving DecidableEq, Repr

/-- A wrapped enum, with the fields the table builders read.  `py_scope` is
`get_py_scope(enum.scope)` and `scope_is_mapped` whether the scope is a
mapped type (both resolved upstream); `fq_named` is whether
`enum.fq_cpp_name` is not `None`. -/
structure WEnum where
  module : Nat
  py_scope : Option Nat := none
  scope_is_mapped : Bool := false
  is_protected : Bool := false
  fq_named : Bool := false
  type_nr : Nat := 0
  members : List WEnumMember := []
deriving DecidableEq, Repr

/-- One entry of a module's needed-types table; for an `ENUM` entry the
definition is the enum (always present upstream). -/
structure NeededType where
  type : ArgumentType
  enum : Option WEnum := none
deriving DecidableEq, Repr

/-- The slice of the resolved specification the table builders read
(`variables_` embeds the source's `spec.variables`; the plain name is a
reserved word in Lean). -/
structure GenSpec where
  module_id : Nat
  c_bindings : Bool := false
  abi_version : Nat × Nat := (13, 0)
  variables_ : List Variable := []
  enums : List WEnum := []
  needed_types : List NeededType := []
deriving DecidableEq, Repr

/-- Python tuple comparison `spec.abi_version >= (major, minor)`. -/
def abi_ge (v : Nat × Nat) (major minor : Nat) : Bool :=
  decide (major < v.1) || (decide (v.1 = major) && decide (minor ≤ v.2))

/-- `_variables_in_scope`. -/
def variables_in_scope (spec : GenSpec) (scope : Option Nat)
    (check_handler : Bool) : List Variable :=
  spec.variables_.filter (fun v =>
    v.py_scope == scope && v.module == spec.module_id &&
      !(check_handler && v.needs_handler))

/-- The variables `_class_instances` places in the static
`sipTypeInstanceDef` table: wrapped-class or named-enum variables, except
— for C++ bindings — those without custom access code and without pointer
indirection, which are skipped in favour of inline code (the
static-initialisation-order hazard).  The per-entry field rendering is not
modelled; the claim concerns membership. -/
def class_instances_vars (spec : GenSpec) (scope : Option Nat) : List Variable :=
  (variables_in_scope spec scope true).filter (fun v =>
    (v.type.type == ArgumentType.CLASS ||
      (v.type.type == ArgumentType.ENUM && v.type.enum_named)) &&
    !(!spec.c_bindings && v.access_code.isNone && v.type.derefs == 0))

/-- The variables `_types_inline` adds through `sipAddTypeInstance` calls
executed during module initialisation. -/
def types_inline_vars (spec : GenSpec) : List Variable :=
  spec.variables_.filter (fun v =>
    v.module == spec.module_id &&
    (v.type.type == ArgumentType.CLASS || v.type.type == ArgumentType.MAPPED ||
      v.type.type == ArgumentType.ENUM) &&
    !v.needs_handler &&
    !(spec.c_bindings || v.access_code.isSome || !(v.type.derefs == 0)))

/-- The module-level (`scope=None`) selection of `_enum_member_table`:
enums of this module with no Python scope, not scoped inside a mapped
type, and named. -/
def enum_in_module_table (e : WEnum) (spec : GenSpec) : Bool :=
  e.module == spec.module_id && e.py_scope == none && !e.scope_is_mapped && e.fq_named

/-- The members collected by the module-level `_enum_member_table`, paired
with their enum's type number, before sorting. -/
def collectGlobalEnumMembers (spec : GenSpec) : List (WEnumMember × Nat) :=
  (spec.enums.filter (fun e => enum_in_module_table e spec)).flatMap
    (fun e => e.members.map (fun m => (m, e.type_nr)))

/-- The module-level `_enum_member_table`: nothing for zero members,
otherwise the members stably sorted by type number and then by Python name
(two `list.sort` calls), plus the member count. -/
def enum_member_table_global (spec : GenSpec) : Nat × List (WEnumMember × Nat) :=
  if (collectGlobalEnumMembers spec).length = 0 then (0, [])
  else
    ((collectGlobalEnumMembers spec).length,
      List.insertionSort
        (fun a b : WEnumMember × Nat =>
          lexLE a.1.py_name.name.data b.1.py_name.name.data = true)
        (List.insertionSort (fun a b : WEnumMember × Nat => a.2 ≤ b.2)
          (collectGlobalEnumMembers spec)))

/-- The `nr_enum_members` branch of `_module_code` (code.py:758-761): from
ABI 13.0 the enum-member table is not generated at all (count -1),
otherwise it is written and counted. -/
def module_enum_member_table (spec : GenSpec) : Int × List (WEnumMember × Nat) :=
  if abi_ge spec.abi_version 13 0 then (-1, [])
  else ((enum_member_table_global spec).1, (enum_member_table_global spec).2)

/-- The argument kinds `_int_instances` accepts as int variables. -/
def int_instance_var_type (t : ArgumentType) : Bool :=
  t == ArgumentType.ENUM || t == ArgumentType.BYTE || t == ArgumentType.SBYTE ||
  t == ArgumentType.UBYTE || t == ArgumentType.USHORT || t == ArgumentType.SHORT ||
  t == ArgumentType.CINT || t == ArgumentType.INT || t == ArgumentType.BOOL ||
  t == ArgumentType.CBOOL

/-- The named-enum member entries placed at the start of the int-instance
table from ABI 13.0, walking the module's needed-types table in order. -/
def named_enum_int_entries (spec : GenSpec) (scope : Option Nat) :
    List (String × String) :=
  (spec.needed_types.filter (fun t => t.type == ArgumentType.ENUM)).flatMap
    (fun t =>
      match t.enum with
      | some e =>
          if e.py_scope == scope && e.module == spec.module_id then
            e.members.map (fun m => (cached_name_ref m.py_name false, m.value_str))
          else []
      | none => [])

/-- The int-variable entries of `_int_instances` (named-enum variables are
handled elsewhere). -/
def int_var_entries (spec : GenSpec) (scope : Option Nat) : List (String × String) :=
  ((variables_in_scope spec scope true).filter (fun v =>
      int_instance_var_type v.type.type &&
      !(v.type.type == ArgumentType.ENUM && v.type.enum_named))).map
    (fun v => (cached_name_ref v.py_name false, v.fq_cpp_name))

/-- The anonymous-enum member entries of `_int_instances`. -/
def anon_enum_int_entries (spec : GenSpec) (scope : Option Nat) :
    List (String × String) :=
  (spec.enums.filter (fun e =>
      e.py_scope == scope && e.module == spec.module_id && !e.fq_named)).flatMap
    (fun e => e.members.map (fun m => (cached_name_ref m.py_name false, m.value_str)))

/-- `_int_instances`: the entries of the int-instance table in emission
order — named-enum members first (ABI ≥ 13.0 only), then int variables,
then anonymous-enum members (at class scope only from ABI 13.0). -/
def int_instances_entries (spec : GenSpec) (scope : Option Nat) :
    List (String × String) :=
  (if abi_ge spec.abi_version 13 0 then named_enum_int_entries spec scope else []) ++
    int_var_entries spec scope ++
    (if abi_ge spec.abi_version 13 0 || scope == none then
      anon_enum_int_entries spec scope else [])

/- ----------------------------------------------------------------------
   The shared virtual handler (`_virtual_handler`, code.py:4133-4383, and
   `_default_instance_return`, code.py:3857-3928).  Formatter outputs
   (type/name renderings, the tuple-builder output, the parse format
   string, `_call_default_ctor` and `cast_zero` results) come from outside
   the embedded files and are taken as opaque string inputs.
   ---------------------------------------------------------------------- -/

/-- The handler's result (`handler.cpp_signature.result` plus the fields of
its definition the generator reads).  `ctor_init_needed` stands for the
source's `ctor is not None and ctor.access_specifier is PUBLIC and
ctor.cpp_signature is not None and len(ctor.cpp_signature.args) > 0 and
ctor.cpp_signature.args[0].default_value is None`; `default_ctor_ok` for
the first three of those conjuncts as tested by
`_default_instance_return`. -/
structure VHResult where
  type : ArgumentType
  derefs : Nat := 0
  is_reference : Bool := false
  is_const : Bool := false
  enum_is_protected : Bool := false
  instance_code : Option String := none
  default_ctor_ok : Bool := false
  ctor_init_needed : Bool := false
  ctor_call : String := "()"
  type_plain : String := "T"
  cast_zero_str : String := "0"
  class_name : String := "T"
  gto : String := "sipType_T"
  cap : String := ""

/-- The handler result viewed as an argument (for `_keep_py_reference` and
`_add_parse_result_extra_params`). -/
def vhArg (r : VHResult) : Argument :=
  { type := r.type, is_reference := r.is_reference, derefs := r.derefs,
    gto := r.gto, cap := r.cap }

/-- `result_is_returned` (code.py:4144). -/
def result_is_returned (r : VHResult) : Bool :=
  !(r.type == ArgumentType.VOID) || !(r.derefs == 0)

/-- The `result_is_reference` flag (code.py:4145-4154): only set when the
result is returned, is a by-value class or mapped type, and is a C++
reference. -/
def result_is_reference (r : VHResult) : Bool :=
  result_is_returned r &&
    (r.type == ArgumentType.CLASS || r.type == ArgumentType.MAPPED) &&
    (r.derefs == 0) && r.is_reference

/-- The `result_instance_code` variable (set in the same branch when the
result is not a reference). -/
def result_instance_code (r : VHResult) : Option String :=
  if result_is_returned r = true ∧
      (r.type = ArgumentType.CLASS ∨ r.type = ArgumentType.MAPPED) ∧
      r.derefs = 0 ∧ r.is_reference = false then
    r.instance_code
  else none

/-- `_default_instance_return` as the chunks it writes, or the
`UserException` it raises for a by-value class without a usable public
default constructor. -/
def default_instance_return (result : Option VHResult) : Except String (List String) :=
  match result with
  | none => .ok ["        return;\n"]
  | some r =>
      let ic := if r.derefs = 0 ∧ (r.type = ArgumentType.CLASS ∨ r.type = ArgumentType.MAPPED)
        then r.instance_code else none
      match ic with
      | some code =>
          .ok ["    \x7b\n        static " ++ r.type_plain ++
                " *sipCpp = SIP_NULLPTR;\n\n        if (!sipCpp)\n        \x7b\n",
              code,
              "        \x7d\n\n        return *sipCpp;\n    \x7d\n"]
      | none =>
          if r.type = ArgumentType.MAPPED ∧ r.derefs = 0 then
            .ok (["        return "] ++ (if r.is_reference then ["*new "] else []) ++
              [r.type_plain ++ "()", ";\n"])
          else if r.type = ArgumentType.CLASS ∧ r.derefs = 0 then
            if r.default_ctor_ok then
              .ok (["        return "] ++ (if r.is_reference then ["*new "] else []) ++
                [r.type_plain, r.ctor_call, ";\n"])
            else .error (r.class_name ++ " must have a default constructor")
          else .ok (["        return ", r.cast_zero_str, ";\n"])

/-- The parts of a virtual handler `_virtual_handler` reads.
`catcher_error_flag` / `catcher_old_error_flag` are the values of
`needs_error_flag` / `needs_old_error_flag` on the handler's
`%VirtualCatcherCode` (callable_bindings.py, outside the embedded files). -/
structure VirtualHandlerModel where
  module_py_name : String := "m"
  handler_nr : Nat := 0
  result : VHResult
  cpp_args : List Argument := []
  py_args : List Argument := []
  virtual_catcher_code : Option String := none
  abort_on_exception : Bool := false
  transfer_result : Bool := false
  catcher_error_flag : Bool := false
  catcher_old_error_flag : Bool := false

/-- The opaque formatter outputs `_virtual_handler` interpolates. -/
structure VHFmt where
  result_decl : String := "T"
  signature_def : String := ""
  result_plain_decl : String := "T"
  tuple_build : String := ""
  parse_fmt : String := ""
  argName : Nat → String := fun i => "a" ++ toString i

/-- `is_used_in_code` (utils.py:56-70) on an optional code block. -/
def is_used_in_code (code : Option String) (s : String) : Bool :=
  match code with
  | none => false
  | some c => decide (s.data <:+: c.data)

/-- The `, int {name}Key` declarations for kept out-arguments
(code.py:4171-4174). -/
def vhKeyDeclChunks (argName : Nat → String) : Nat → List Argument → List String
  | _, [] => []
  | i, a :: rest =>
      if a.is_out && keep_py_reference a then
        (", int " ++ argName i ++ "Key") :: vhKeyDeclChunks argName (i + 1) rest
      else vhKeyDeclChunks argName (i + 1) rest

/-- The handler's signature chunks (code.py:4156-4176). -/
def vhHead (h : VirtualHandlerModel) (fmt : VHFmt) : List String :=
  ["\n" ++ fmt.result_decl ++ " sipVH_" ++ h.module_py_name ++ "_" ++
      toString h.handler_nr ++
      "(sip_gilstate_t sipGILState, sipVirtErrorHandlerFunc sipErrorHandler, sipSimpleWrapper *sipPySelf, PyObject *sipMethod"] ++
  (if h.cpp_args.length ≠ 0 then [", " ++ fmt.signature_def] else []) ++
  (if result_is_returned h.result && keep_py_reference (vhArg h.result) then
    [", int"] ++
      (if h.virtual_catcher_code = none ∨
          is_used_in_code h.virtual_catcher_code "sipResKey" = true then
        [" sipResKey"] else [])
  else []) ++
  vhKeyDeclChunks fmt.argName 0 h.cpp_args ++
  [")\n\x7b\n"]

/-- The `sipres_value` initialiser (code.py:4211-4231). -/
def vhSipresValue (r : VHResult) : String :=
  if (r.type = ArgumentType.CLASS ∨ r.type = ArgumentType.MAPPED ∨
      r.type = ArgumentType.TEMPLATE) ∧ r.derefs = 0 then
    if (result_instance_code r).isSome then " = *sipCpp"
    else if r.type = ArgumentType.CLASS ∧ r.ctor_init_needed then r.ctor_call
    else ""
  else if r.type = ArgumentType.ENUM ∧ r.enum_is_protected then " = 0"
  else " = " ++ r.cast_zero_str

/-- The declaration and initialisation of `sipRes` (code.py:4178-4247),
empty when no result is returned. -/
def vhResultSetup (h : VirtualHandlerModel) (fmt : VHFmt) : List String :=
  if result_is_returned h.result then
    (match result_instance_code h.result with
     | some code =>
        ["    static " ++ fmt.result_plain_decl ++
            " *sipCpp = SIP_NULLPTR;\n\n    if (!sipCpp)\n    \x7b\n",
         code, "    \x7d\n\n"]
     | none => []) ++
    ["    "] ++
    (if h.result.type = ArgumentType.WSTRING ∧ h.result.derefs = 1 then ["static "]
      else []) ++
    [fmt.result_plain_decl] ++
    [" " ++ (if result_is_reference h.result then "*" else "") ++ "sipRes"] ++
    [vhSipresValue h.result ++ ";\n"] ++
    (if h.result.type = ArgumentType.WSTRING ∧ h.result.derefs = 1 then
      ["\n    if (sipRes)\n    \x7b\n        // Return any previous result to the heap.\n        sipFree(" ++
        (if h.result.is_const then "const_cast<wchar_t *>(sipRes)" else "sipRes") ++
        ");\n        sipRes = SIP_NULLPTR;\n    \x7d\n\n"]
    else [])
  else []

/-- The `%VirtualCatcherCode` tail (code.py:4249-4287). -/
def vhCatcherTail (h : VirtualHandlerModel) (code : String) : List String :=
  (if h.catcher_error_flag then ["    sipErrorState sipError = sipErrorNone;\n"]
   else if h.catcher_old_error_flag then ["    int sipIsErr = 0;\n"] else []) ++
  ["\n", code, "\n    Py_DECREF(sipMethod);\n"] ++
  (if h.catcher_error_flag || h.catcher_old_error_flag then
    ["\n    if (" ++
      (if h.catcher_error_flag then "sipError != sipErrorNone" else "sipIsErr") ++
      ")\n        sipCallErrorHandler(sipErrorHandler, sipPySelf, sipGILState);\n"]
  else []) ++
  ["\n    SIP_RELEASE_GIL(sipGILState)\n"] ++
  (if result_is_returned h.result then ["\n    return sipRes;\n"] else []) ++
  ["\x7d\n"]

/-- The extra parameters and destinations for out-arguments passed to
`sipParseResultEx` (code.py:4338-4346). -/
def vhOutArgParams (argName : Nat → String) : Nat → List Argument → List String
  | _, [] => []
  | i, a :: rest =>
      if a.is_out then
        add_parse_result_extra_params a argName (Int.ofNat i) ++
          [(if a.is_reference then "&" else "") ++ argName i] ++
          vhOutArgParams argName (i + 1) rest
      else vhOutArgParams argName (i + 1) rest

/-- The full `sipParseResultEx` parameter list (code.py:4312-4348): the
saved state, the error handler, the instance, the method, the returned
object, the format string, then per-value extras and destinations. -/
def vhParseParams (h : VirtualHandlerModel) (fmt : VHFmt) : List String :=
  ["sipGILState", "sipErrorHandler", "sipPySelf", "sipMethod", "sipResObj",
   "\"" ++ fmt.parse_fmt ++ "\""] ++
  (if result_is_returned h.result then
    add_parse_result_extra_params (vhArg h.result) fmt.argName (-1) ++ ["&sipRes"]
  else []) ++
  vhOutArgParams fmt.argName 0 h.py_args

/-- Whether the result of the parse call is checked: only for a C++
reference result or a handler configured to abort on exception
(`return_code`, code.py:4350). -/
def vhCheck (h : VirtualHandlerModel) : Bool :=
  result_is_reference h.result || h.abort_on_exception

/-- The chunk closing the call-method line and issuing the parse call,
capturing its result only when it will be checked (code.py:4350-4356). -/
def vhParseChunk (h : VirtualHandlerModel) (fmt : VHFmt) : String :=
  ");\n\n    " ++ (if vhCheck h then "int sipRc = " else "") ++ "sipParseResultEx(" ++
    String.intercalate ", " (vhParseParams h fmt) ++ ");\n"

/-- The `return sipRes` statement (code.py:4373-4379). -/
def vhReturnRes (h : VirtualHandlerModel) : List String :=
  ["\n    return " ++ (if result_is_reference h.result then "*" else "") ++ "sipRes;\n"]

/-- `_virtual_handler` as the list of chunks written, or the exception
`_default_instance_return` raises. -/
def virtual_handler (h : VirtualHandlerModel) (fmt : VHFmt) :
    Except String (List String) :=
  let head := vhHead h fmt ++ vhResultSetup h fmt
  match h.virtual_catcher_code with
  | some code => .ok (head ++ vhCatcherTail h code)
  | none =>
      if (if result_is_returned h.result then 1 else 0) +
          (h.py_args.filter (fun a => a.is_out)).length = 0 then
        .ok (head ++
          ["    sipCallProcedureMethod(sipGILState, sipErrorHandler, sipPySelf, sipMethod, ",
           fmt.tuple_build, ");\n\x7d\n"])
      else
        let callhead := ["    PyObject *sipResObj = sipCallMethod(SIP_NULLPTR, sipMethod, ",
          fmt.tuple_build, vhParseChunk h fmt]
        if result_is_returned h.result then
          if vhCheck h then
            if h.abort_on_exception then
              .ok (head ++ callhead ++ ["\n    if (sipRc < 0)\n", "        abort();\n"] ++
                vhReturnRes h ++ ["\x7d\n"])
            else
              match default_instance_return (some h.result) with
              | .error e => .error e
              | .ok di =>
                  .ok (head ++ callhead ++ ["\n    if (sipRc < 0)\n"] ++ di ++
                    vhReturnRes h ++ ["\x7d\n"])
          else .ok (head ++ callhead ++ vhReturnRes h ++ ["\x7d\n"])
        else .ok (head ++ callhead ++ ["\x7d\n"])

/-- The newline character. -/
def nlChar : Char := Char.ofNat 10

/-- A formatter output that stays on one line. -/
def no_nl (s : String) : Prop := nlChar ∉ s.data

/-- The cleanliness conditions on the opaque formatter outputs under which
the generated chunks are distinguishable from the parse-check and abort
statements: single-line formatter output, and user-supplied
`%InstanceCode` / constructor calls that do not spell those exact
statements. -/
def vhOpaqueClean (h : VirtualHandlerModel) (fmt : VHFmt) : Prop :=
  no_nl fmt.tuple_build ∧ no_nl fmt.result_plain_decl ∧
  no_nl h.result.type_plain ∧ no_nl h.result.ctor_call ∧
  no_nl h.result.cast_zero_str ∧
  (∀ c, h.result.instance_code = some c →
    c ≠ "\n    if (sipRc < 0)\n" ∧ c ≠ "        abort();\n") ∧
  h.result.ctor_call ++ ";\n" ≠ "        abort();\n"

/-- The chunk testing the captured parse result (code.py:4360-4363). -/
def checkChunk : String := "\n    if (sipRc < 0)\n"

/-- The abort statement written when the handler aborts on exception
(code.py:4366). -/
def abortChunk : String := "        abort();\n"

/-- A concrete handler returning an `int` and aborting on exception. -/
def vhW : VirtualHandlerModel :=
  { result := { type := ArgumentType.INT }, abort_on_exception := true }

/-- Default formatter outputs for the concrete handler. -/
def vhFmtW : VHFmt := { }

/-- The chunks generated for the concrete handler. -/
def vhWOut : List String :=
  match virtual_handler vhW vhFmtW with
  | .ok l => l
  | .error _ => []

/- Basic lemmas about the name-pool embedding. -/

theorem sipStrings_append (l₁ l₂ : List CachedName) :
    sipStrings (l₁ ++ l₂) = sipStrings l₁ ++ sipStrings l₂ := by
  simp [sipStrings, List.filter_append]

theorem sipStrings_single_skip (c : CachedName) (h : (c.used && !c.is_substring) = false) :
    sipStrings [c] = [] := by
  simp [sipStrings, List.filter, h]

theorem sipStrings_single_keep (c : CachedName) (h : (c.used && !c.is_substring) = true) :
    sipStrings [c] = c.name.data ++ [Char.ofNat 0] := by
  simp [sipStrings, List.filter, h]

theorem placeName_name (placed : List CachedName) (offset : Nat) (c : CachedName) :
    (placeName placed offset c).1.name = c.name := by
  unfold placeName
  split
  · rfl
  · split <;> rfl

theorem assignOffsets_map_name (rest : List CachedName) :
    ∀ (placed : List CachedName) (offset : Nat),
      (assignOffsets rest placed offset).map (fun c => c.name) =
        placed.map (fun c => c.name) ++ rest.map (fun c => c.name) := by
  induction rest with
  | nil => intro placed offset; simp [assignOffsets]
  | cons c rest ih =>
      intro placed offset
      simp only [assignOffsets]
      rw [ih]
      simp [placeName_name]

theorem drop_extend {l₁ l₂ d t : List Char} {x : Char} {n : Nat}
    (h : l₁.drop n = d ++ x :: t) : (l₁ ++ l₂).drop n = d ++ x :: (t ++ l₂) := by
  have hn : n ≤ l₁.length := by
    by_contra hn
    push_neg at hn
    rw [List.drop_eq_nil_of_le (Nat.le_of_lt hn)] at h
    exact absurd h.symm (by simp)
  rw [List.drop_append_of_le_length hn, h]
  simp

theorem takeWhile_name {d t : List Char} (hnn : Char.ofNat 0 ∉ d) :
    (d ++ Char.ofNat 0 :: t).takeWhile (fun ch => decide (ch ≠ Char.ofNat 0)) = d := by
  induction d with
  | nil => simp [List.takeWhile_cons]
  | cons a d ih =>
      have ha : a ≠ Char.ofNat 0 := by
        intro hc; exact hnn (by simp [hc])
      have hd : Char.ofNat 0 ∉ d := fun hc => hnn (by simp [hc])
      have hih := ih hd
      simp only [List.cons_append, List.takeWhile_cons, decide_eq_true_eq] at hih ⊢
      rw [if_pos ha, hih]

theorem findSuffixHost_sound {d : List Char} :
    ∀ {placed : List CachedName} {p : CachedName},
      findSuffixHost d placed = some p →
      p ∈ placed ∧ p.used = true ∧ p.is_substring = false ∧
        d.length < p.name.data.length ∧ d <:+ p.name.data := by
  intro placed
  induction placed with
  | nil => intro p h; simp [findSuffixHost] at h
  | cons q rest ih =>
      intro p h
      unfold findSuffixHost at h
      by_cases h1 : q.name.data.length ≤ d.length
      · rw [if_pos h1] at h
        exact Option.noConfusion h
      · rw [if_neg h1] at h
        by_cases h2 : (!q.used || q.is_substring) = true
        · rw [if_pos h2] at h
          have hr := ih h
          exact ⟨List.mem_cons_of_mem _ hr.1, hr.2⟩
        · rw [if_neg h2] at h
          have hu : q.used = true := by
            rcases Bool.eq_false_or_eq_true q.used with hx | hx
            · exact hx
            · exact absurd (by rw [hx]; rfl) h2
          have hs : q.is_substring = false := by
            rcases Bool.eq_false_or_eq_true q.is_substring with hx | hx
            · exact absurd (by rw [hx]; simp) h2
            · exact hx
          by_cases h3 : d.isSuffixOf q.name.data = true
          · rw [if_pos h3] at h
            cases h
            refine ⟨List.mem_cons_self _ _, hu, hs, by omega, ?_⟩
            rw [List.isSuffixOf] at h3
            rw [List.isPrefixOf_iff_prefix] at h3
            exact List.reverse_prefix.mp h3
          · rw [if_neg h3] at h
            have hr := ih h
            exact ⟨List.mem_cons_of_mem _ hr.1, hr.2⟩

theorem findSuffixHost_none {d : List Char} :
    ∀ {placed : List CachedName},
      List.Pairwise (fun a b => b.name.data.length ≤ a.name.data.length) placed →
      findSuffixHost d placed = none →
      ∀ q ∈ placed,
        ¬(q.used = true ∧ q.is_substring = false ∧
          d.length < q.name.data.length ∧ d <:+ q.name.data) := by
  intro placed
  induction placed with
  | nil => intro _ _ q hq; simp at hq
  | cons q0 rest ih =>
      intro hp h q hq
      rw [List.pairwise_cons] at hp
      unfold findSuffixHost at h
      by_cases h1 : q0.name.data.length ≤ d.length
      · rcases List.mem_cons.mp hq with rfl | hq
        · intro hc; omega
        · intro hc
          have := hp.1 q hq
          omega
      · rw [if_neg h1] at h
        by_cases h2 : (!q0.used || q0.is_substring) = true
        · rw [if_pos h2] at h
          rcases List.mem_cons.mp hq with rfl | hq
          · intro hc
            rw [hc.1, hc.2.1] at h2
            simp at h2
          · exact ih hp.2 h q hq
        · rw [if_neg h2] at h
          by_cases h3 : d.isSuffixOf q0.name.data = true
          · rw [if_pos h3] at h
            exact Option.noConfusion h
          · rw [if_neg h3] at h
            rcases List.mem_cons.mp hq with rfl | hq
            · intro hc
              apply h3
              rw [List.isSuffixOf, List.isPrefixOf_iff_prefix]
              exact List.reverse_prefix.mpr hc.2.2.2
            · exact ih hp.2 h q hq

/- Extension lemmas: each step of the offset-assignment loop appends one
processed entry; these transport the four invariants across the append. -/

theorem RecProp_extend {placed : List CachedName} {c : CachedName}
    (hrec : RecProp placed)
    (hnew : c.used = true →
      ∃ t, (sipStrings (placed ++ [c])).drop c.offset = c.name.data ++ Char.ofNat 0 :: t) :
    RecProp (placed ++ [c]) := by
  intro x hx hu
  rcases List.mem_append.mp hx with hx | hx
  · obtain ⟨t, ht⟩ := hrec x hx hu
    rw [sipStrings_append]
    exact ⟨t ++ sipStrings [c], drop_extend ht⟩
  · rcases List.mem_singleton.mp hx with rfl
    exact hnew hu

theorem RunProp_extend {placed : List CachedName} {c : CachedName}
    (hrun : RunProp placed)
    (hnew : c.used = true → c.is_substring = false →
      c.offset = (sipStrings placed).length) :
    RunProp (placed ++ [c]) := by
  intro i h hu hs
  have hlen : (placed ++ [c]).length = placed.length + 1 := by simp
  by_cases hi : i < placed.length
  · have hget : (placed ++ [c]).get ⟨i, h⟩ = placed.get ⟨i, hi⟩ := by
      simp [List.get_eq_getElem, List.getElem_append_left hi]
    rw [hget] at hu hs ⊢
    rw [List.take_append_of_le_length (Nat.le_of_lt hi)]
    exact hrun i hi hu hs
  · have hieq : i = placed.length := by omega
    subst hieq
    have hget : (placed ++ [c]).get ⟨placed.length, h⟩ = c := by
      simp [List.get_eq_getElem]
    rw [hget] at hu hs ⊢
    rw [List.take_left]
    exact hnew hu hs

theorem HostIffProp_extend {placed : List CachedName} {c : CachedName}
    (hiff : HostIffProp placed)
    (hnew : c.used = true →
      (c.is_substring = true ↔
        ∃ j, ∃ hj : j < placed.length, isHostOf (placed.get ⟨j, hj⟩) c)) :
    HostIffProp (placed ++ [c]) := by
  intro i h hu
  have hlen : (placed ++ [c]).length = placed.length + 1 := by simp
  by_cases hi : i < placed.length
  · have hget : (placed ++ [c]).get ⟨i, h⟩ = placed.get ⟨i, hi⟩ := by
      simp [List.get_eq_getElem, List.getElem_append_left hi]
    rw [hget] at hu ⊢
    constructor
    · intro hs
      obtain ⟨j, hj, hh⟩ := (hiff i hi hu).mp hs
      have hgetj : (placed ++ [c]).get ⟨j, Nat.lt_trans hj h⟩ =
          placed.get ⟨j, Nat.lt_trans hj hi⟩ := by
        simp [List.get_eq_getElem, List.getElem_append_left (Nat.lt_trans hj hi)]
      exact ⟨j, hj, by rw [hgetj]; exact hh⟩
    · intro ⟨j, hj, hh⟩
      have hgetj : (placed ++ [c]).get ⟨j, Nat.lt_trans hj h⟩ =
          placed.get ⟨j, Nat.lt_trans hj hi⟩ := by
        simp [List.get_eq_getElem, List.getElem_append_left (Nat.lt_trans hj hi)]
      rw [hgetj] at hh
      exact (hiff i hi hu).mpr ⟨j, hj, hh⟩
  · have hieq : i = placed.length := by omega
    subst hieq
    have hget : (placed ++ [c]).get ⟨placed.length, h⟩ = c := by
      simp [List.get_eq_getElem]
    rw [hget] at hu ⊢
    constructor
    · intro hs
      obtain ⟨j, hj, hh⟩ := (hnew hu).mp hs
      have hgetj : (placed ++ [c]).get ⟨j, Nat.lt_trans hj h⟩ =
          placed.get ⟨j, hj⟩ := by
        simp [List.get_eq_getElem, List.getElem_append_left hj]
      exact ⟨j, hj, by rw [hgetj]; exact hh⟩
    · intro ⟨j, hj, hh⟩
      have hgetj : (placed ++ [c]).get ⟨j, Nat.lt_trans hj h⟩ =
          placed.get ⟨j, hj⟩ := by
        simp [List.get_eq_getElem, List.getElem_append_left hj]
      rw [hgetj] at hh
      exact (hnew hu).mpr ⟨j, hj, hh⟩

theorem HostOffsetProp_extend {placed : List CachedName} {c : CachedName}
    (hho : HostOffsetProp placed)
    (hnew : c.used = true → c.is_substring = true →
      ∃ j, ∃ hj : j < placed.length, isHostOf (placed.get ⟨j, hj⟩) c ∧
        c.offset = (placed.get ⟨j, hj⟩).offset +
          (placed.get ⟨j, hj⟩).name.data.length - c.name.data.length) :
    HostOffsetProp (placed ++ [c]) := by
  intro i h hu hs
  have hlen : (placed ++ [c]).length = placed.length + 1 := by simp
  by_cases hi : i < placed.length
  · have hget : (placed ++ [c]).get ⟨i, h⟩ = placed.get ⟨i, hi⟩ := by
      simp [List.get_eq_getElem, List.getElem_append_left hi]
    rw [hget] at hu hs ⊢
    obtain ⟨j, hj, hh, hoff⟩ := hho i hi hu hs
    have hgetj : (placed ++ [c]).get ⟨j, Nat.lt_trans hj h⟩ =
        placed.get ⟨j, Nat.lt_trans hj hi⟩ := by
      simp [List.get_eq_getElem, List.getElem_append_left (Nat.lt_trans hj hi)]
    exact ⟨j, hj, by rw [hgetj]; exact hh, by rw [hgetj]; exact hoff⟩
  · have hieq : i = placed.length := by omega
    subst hieq
    have hget : (placed ++ [c]).get ⟨placed.length, h⟩ = c := by
      simp [List.get_eq_getElem]
    rw [hget] at hu hs ⊢
    obtain ⟨j, hj, hh, hoff⟩ := hnew hu hs
    have hgetj : (placed ++ [c]).get ⟨j, Nat.lt_trans hj h⟩ =
        placed.get ⟨j, hj⟩ := by
      simp [List.get_eq_getElem, List.getElem_append_left hj]
    exact ⟨j, hj, by rw [hgetj]; exact hh, by rw [hgetj]; exact hoff⟩

/- The sort comparator is total and transitive, so the sorted cache list is
ordered by it, in particular by non-increasing name length. -/

theorem lexLE_total : ∀ (as bs : List Char), lexLE as bs = true ∨ lexLE bs as = true := by
  intro as
  induction as with
  | nil => intro bs; left; rfl
  | cons a as ih =>
      intro bs
      cases bs with
      | nil => right; rfl
      | cons b bs =>
          by_cases hab : a = b
          · subst hab
            rcases ih bs with h | h
            · left; simpa [lexLE] using h
            · right; simpa [lexLE] using h
          · rcases lt_or_gt_of_ne hab with h | h
            · left; simp [lexLE, hab, h]
            · right; simp [lexLE, Ne.symm hab, h]

theorem lexLE_trans : ∀ {as bs cs : List Char},
    lexLE as bs = true → lexLE bs cs = true → lexLE as cs = true := by
  intro as
  induction as with
  | nil => intro bs cs _ _; rfl
  | cons a as ih =>
      intro bs cs h1 h2
      cases bs with
      | nil => simp [lexLE] at h1
      | cons b bs =>
          cases cs with
          | nil => simp [lexLE] at h2
          | cons c cs =>
              by_cases hab : a = b <;> by_cases hbc : b = c
              · subst hab; subst hbc
                simp only [lexLE, if_pos rfl] at h1 h2 ⊢
                exact ih h1 h2
              · subst hab
                simp only [lexLE, if_pos rfl, if_neg hbc, decide_eq_true_eq] at h2 ⊢
                have hac : a ≠ c := hbc
                simp [if_neg hac, h2]
              · subst hbc
                simp only [lexLE, if_neg hab, decide_eq_true_eq] at h1
                simp [lexLE, if_neg hab, h1]
              · simp only [lexLE, if_neg hab, if_neg hbc, decide_eq_true_eq] at h1 h2
                have hac : a < c := lt_trans h1 h2
                have hne : a ≠ c := ne_of_lt hac
                simp [lexLE, if_neg hne, hac]

theorem cacheLE_total : ∀ (a b : CachedName), cacheLE a b = true ∨ cacheLE b a = true := by
  intro a b
  rcases Nat.lt_trichotomy a.name.data.length b.name.data.length with h | h | h
  · right
    rw [cacheLE, Bool.or_eq_true]
    exact Or.inl (decide_eq_true h)
  · rcases lexLE_total a.name.data b.name.data with hl | hl
    · left
      rw [cacheLE, Bool.or_eq_true, Bool.and_eq_true]
      exact Or.inr ⟨decide_eq_true h, hl⟩
    · right
      rw [cacheLE, Bool.or_eq_true, Bool.and_eq_true]
      exact Or.inr ⟨decide_eq_true h.symm, hl⟩
  · left
    rw [cacheLE, Bool.or_eq_true]
    exact Or.inl (decide_eq_true h)

theorem cacheLE_trans : ∀ (a b c : CachedName),
    cacheLE a b = true → cacheLE b c = true → cacheLE a c = true := by
  intro a b c h1 h2
  simp only [cacheLE, Bool.or_eq_true, Bool.and_eq_true, decide_eq_true_eq] at h1 h2 ⊢
  rcases h1 with h1 | ⟨h1e, h1l⟩
  · rcases h2 with h2 | ⟨h2e, _⟩
    · left; omega
    · left; omega
  · rcases h2 with h2 | ⟨h2e, h2l⟩
    · left; omega
    · right; exact ⟨by omega, lexLE_trans h1l h2l⟩

instance cacheLE_isTotal : IsTotal CachedName (fun a b => cacheLE a b = true) :=
  ⟨cacheLE_total⟩

instance cacheLE_isTrans : IsTrans CachedName (fun a b => cacheLE a b = true) :=
  ⟨cacheLE_trans⟩

theorem sortedCache_len_pairwise (cache : List CachedName) :
    List.Pairwise (fun a b : Nat => b ≤ a)
      ((sortedCache cache).map (fun x => x.name.data.length)) := by
  rw [List.pairwise_map]
  have h := List.sorted_insertionSort (fun a b => cacheLE a b = true) cache
  refine h.imp ?_
  intro a b hab
  simp only [cacheLE, Bool.or_eq_true, Bool.and_eq_true, decide_eq_true_eq] at hab
  rcases hab with h | ⟨h, _⟩ <;> omega

theorem sortedCache_mem {cache : List CachedName} {x : CachedName}
    (h : x ∈ sortedCache cache) : x ∈ cache :=
  (List.perm_insertionSort _ cache).mem_iff.mp h

/- Reduction lemmas for one step of the placement loop. -/

theorem placeName_unused {placed : List CachedName} {offset : Nat} {c : CachedName}
    (h : c.used = false) : placeName placed offset c = (c, offset) := by
  simp [placeName, h]

theorem placeName_host {placed : List CachedName} {offset : Nat} {c p : CachedName}
    (hu : c.used = true) (hfind : findSuffixHost c.name.data placed = some p) :
    placeName placed offset c =
      ({ c with is_substring := true,
                offset := p.offset + p.name.data.length - c.name.data.length }, offset) := by
  simp [placeName, hu, hfind]

theorem placeName_fresh {placed : List CachedName} {offset : Nat} {c : CachedName}
    (hu : c.used = true) (hfind : findSuffixHost c.name.data placed = none) :
    placeName placed offset c =
      ({ c with offset := offset }, offset + c.name.data.length + 1) := by
  simp [placeName, hu, hfind]

/-- Main induction: processing the remaining (sorted) entries preserves the
four pool invariants. -/
theorem assignOffsets_spec :
    ∀ (rest placed : List CachedName) (offset : Nat),
      List.Pairwise (fun a b : Nat => b ≤ a)
        ((placed ++ rest).map (fun x => x.name.data.length)) →
      (∀ x ∈ rest, x.is_substring = false) →
      offset = (sipStrings placed).length →
      RecProp placed → RunProp placed → HostIffProp placed → HostOffsetProp placed →
      RecProp (assignOffsets rest placed offset) ∧
        RunProp (assignOffsets rest placed offset) ∧
        HostIffProp (assignOffsets rest placed offset) ∧
        HostOffsetProp (assignOffsets rest placed offset) := by
  intro rest
  induction rest with
  | nil =>
      intro placed offset _ _ _ h1 h2 h3 h4
      exact ⟨h1, h2, h3, h4⟩
  | cons c rest ih =>
      intro placed offset hsort hfresh hoff hrec hrun hiff hho
      have hcfresh : c.is_substring = false := hfresh c (List.mem_cons_self _ _)
      have hfresh' : ∀ x ∈ rest, x.is_substring = false :=
        fun x hx => hfresh x (List.mem_cons_of_mem _ hx)
      simp only [assignOffsets]
      by_cases hcu : c.used = false
      · -- unused entry: skipped, everything unchanged
        rw [placeName_unused hcu]
        dsimp only
        have hpool : sipStrings (placed ++ [c]) = sipStrings placed := by
          rw [sipStrings_append, sipStrings_single_skip c (by rw [hcu]; rfl)]
          simp
        have habs : ¬c.used = true := by rw [hcu]; simp
        refine ih (placed ++ [c]) offset ?_ hfresh' ?_ ?_ ?_ ?_ ?_
        · have heq : (placed ++ [c]) ++ rest = placed ++ c :: rest := by simp
          rw [heq]; exact hsort
        · rw [hpool]; exact hoff
        · exact RecProp_extend hrec (fun hu => absurd hu habs)
        · exact RunProp_extend hrun (fun hu _ => absurd hu habs)
        · exact HostIffProp_extend hiff (fun hu => absurd hu habs)
        · exact HostOffsetProp_extend hho (fun hu _ => absurd hu habs)
      · have hcu : c.used = true := by
          rcases Bool.eq_false_or_eq_true c.used with hx | hx
          · exact hx
          · exact absurd hx hcu
        rcases hfind : findSuffixHost c.name.data placed with _ | p
        · -- no host: place at the running offset
          rw [placeName_fresh hcu hfind]
          dsimp only
          have hpool : sipStrings (placed ++ [{ c with offset := offset }]) =
              sipStrings placed ++ (c.name.data ++ [Char.ofNat 0]) := by
            rw [sipStrings_append, sipStrings_single_keep _ (by simp [hcu, hcfresh])]
          have hpair : List.Pairwise
              (fun a b => b.name.data.length ≤ a.name.data.length) placed := by
            have hsub : List.Sublist (placed.map (fun x => x.name.data.length))
                ((placed ++ c :: rest).map (fun x => x.name.data.length)) :=
              (List.sublist_append_left _ _).map _
            have h2 := hsort.sublist hsub
            rwa [List.pairwise_map] at h2
          refine ih _ _ ?_ hfresh' ?_ ?_ ?_ ?_ ?_
          · have heq : ((placed ++ [{ c with offset := offset }]) ++ rest).map
                (fun x : CachedName => x.name.data.length) =
                ((placed ++ c :: rest).map (fun x : CachedName => x.name.data.length)) := by
              simp
            rw [heq]; exact hsort
          · rw [hpool]
            simp only [List.length_append, List.length_append, List.length_cons,
              List.length_nil]
            omega
          · refine RecProp_extend hrec (fun _ => ⟨[], ?_⟩)
            rw [hpool]
            have hco : ({ c with offset := offset } : CachedName).offset = offset := rfl
            rw [hco, hoff, List.drop_left]
          · exact RunProp_extend hrun (fun _ _ => by rw [hoff])
          · refine HostIffProp_extend hiff (fun _ => ?_)
            constructor
            · intro hs
              exact absurd hs (by simp [hcfresh])
            · intro ⟨j, hj, hh⟩
              exfalso
              have hq := findSuffixHost_none hpair hfind (placed.get ⟨j, hj⟩)
                (placed.get_mem j hj)
              exact hq ⟨hh.1, hh.2.1, hh.2.2.1, hh.2.2.2⟩
          · exact HostOffsetProp_extend hho
              (fun _ hs => absurd hs (by simp [hcfresh]))
        · -- host found: record a suffix reference, no new pool bytes
          rw [placeName_host hcu hfind]
          dsimp only
          obtain ⟨hpmem, hpu, hps, hplen, hpsuf⟩ := findSuffixHost_sound hfind
          have hpool : sipStrings (placed ++
              [{ c with is_substring := true,
                        offset := p.offset + p.name.data.length - c.name.data.length }]) =
              sipStrings placed := by
            rw [sipStrings_append, sipStrings_single_skip _ (by simp)]
            simp
          refine ih _ _ ?_ hfresh' ?_ ?_ ?_ ?_ ?_
          · have heq : ((placed ++
                [{ c with is_substring := true,
                          offset := p.offset + p.name.data.length - c.name.data.length }]
                ) ++ rest).map (fun x : CachedName => x.name.data.length) =
                ((placed ++ c :: rest).map (fun x : CachedName => x.name.data.length)) := by
              simp
            rw [heq]; exact hsort
          · rw [hpool]; exact hoff
          · refine RecProp_extend hrec (fun _ => ?_)
            rw [hpool]
            obtain ⟨t, ht⟩ := hrec p hpmem hpu
            obtain ⟨pre, hpre⟩ := hpsuf
            have hlen : p.name.data.length = pre.length + c.name.data.length := by
              rw [← hpre]; simp
            have hoffc : ({ c with is_substring := true, offset := p.offset + p.name.data.length - c.name.data.length } : CachedName).offset = p.offset + pre.length := by
              show p.offset + p.name.data.length - c.name.data.length =
                p.offset + pre.length
              omega
            rw [hoffc, ← List.drop_drop, ht, ← hpre, List.append_assoc, List.drop_left]
            exact ⟨t, rfl⟩
          · exact RunProp_extend hrun (fun _ hs => absurd hs (by simp))
          · refine HostIffProp_extend hiff (fun _ => ?_)
            constructor
            · intro _
              obtain ⟨⟨j, hj⟩, hget⟩ := List.mem_iff_get.mp hpmem
              refine ⟨j, hj, ?_⟩
              rw [hget]
              exact ⟨hpu, hps, hplen, hpsuf⟩
            · intro _
              rfl
          · refine HostOffsetProp_extend hho (fun _ _ => ?_)
            obtain ⟨⟨j, hj⟩, hget⟩ := List.mem_iff_get.mp hpmem
            refine ⟨j, hj, ?_, ?_⟩
            · rw [hget]
              exact ⟨hpu, hps, hplen, hpsuf⟩
            · rw [hget]

/-- C1: for every set of cached names (all initially unmarked, names free of
the 0 terminator byte), `_name_cache_as_list` orders the names by descending
length (ties by ascending name) and assigns string-pool offsets so that
(a) every used name is recoverable from the packed table by reading from its
recorded offset up to the null terminator (`readName` conjunct);
(b) a used name is marked as a zero-cost suffix exactly when an
earlier-placed, used, non-suffix name has it as an exact tail, and it then
receives that name's offset plus the difference of their lengths
(`HostIffProp` and `HostOffsetProp` conjuncts, so it allocates no pool
bytes);
(c) every other used name is placed at the current running offset, which
advances by the name's length plus one (`RunProp` conjunct);
and for exactly the used names `x`, `yx`, `zyx`, the name `zyx` gets
offset 0, `yx` offset 1, `x` offset 2, and only `zyx` occupies pool bytes
(final conjunct). -/
theorem name_cache_as_list_correct (cache : List CachedName)
    (hfresh : ∀ c ∈ cache, c.is_substring = false)
    (hnul : ∀ c ∈ cache, Char.ofNat 0 ∉ c.name.data) :
    (∀ c ∈ name_cache_as_list cache, c.used = true →
        readName (sipStrings (name_cache_as_list cache)) c.offset = c.name.data) ∧
      RunProp (name_cache_as_list cache) ∧
      HostIffProp (name_cache_as_list cache) ∧
      HostOffsetProp (name_cache_as_list cache) ∧
      ((name_cache_as_list xyzCache).map (fun c => (c.name, c.offset, c.is_substring)) =
          [("zyx", 0, false), ("yx", 1, true), ("x", 2, true)] ∧
        sipStrings (name_cache_as_list xyzCache) = "zyx".data ++ [Char.ofNat 0]) := by
  have hspec := assignOffsets_spec (sortedCache cache) [] 0
    (by simpa using sortedCache_len_pairwise cache)
    (fun x hx => hfresh x (sortedCache_mem hx))
    (by rfl)
    (fun c hc => by simp at hc)
    (fun i h => by simp at h)
    (fun i h => by simp at h)
    (fun i h => by simp at h)
  obtain ⟨hrec, hrun, hiff, hho⟩ := hspec
  refine ⟨?_, hrun, hiff, hho, by decide, by decide⟩
  intro c hc hu
  obtain ⟨t, ht⟩ := hrec c hc hu
  have hnulc : Char.ofNat 0 ∉ c.name.data := by
    have hmem : c.name ∈ (name_cache_as_list cache).map (fun x => x.name) :=
      List.mem_map_of_mem _ hc
    rw [name_cache_as_list, assignOffsets_map_name] at hmem
    simp only [List.map_nil, List.nil_append, List.mem_map] at hmem
    obtain ⟨c₀, hc₀, hname⟩ := hmem
    rw [← hname]
    exact hnul c₀ (sortedCache_mem hc₀)
  rw [readName, name_cache_as_list, ht]
  exact takeWhile_name hnulc

/-- Witness for C1: the hypotheses hold and the conclusion is realised at the
concrete cache holding exactly the used names `x`, `yx`, `zyx`. -/
theorem name_cache_as_list_correct_witness :
    ((∀ c ∈ xyzCache, c.is_substring = false) ∧
      (∀ c ∈ xyzCache, Char.ofNat 0 ∉ c.name.data)) ∧
      ((∀ c ∈ name_cache_as_list xyzCache, c.used = true →
          readName (sipStrings (name_cache_as_list xyzCache)) c.offset = c.name.data) ∧
        RunProp (name_cache_as_list xyzCache) ∧
        HostIffProp (name_cache_as_list xyzCache) ∧
        HostOffsetProp (name_cache_as_list xyzCache) ∧
        ((name_cache_as_list xyzCache).map (fun c => (c.name, c.offset, c.is_substring)) =
            [("zyx", 0, false), ("yx", 1, true), ("x", 2, true)] ∧
          sipStrings (name_cache_as_list xyzCache) = "zyx".data ++ [Char.ofNat 0])) :=
  ⟨⟨by decide, by decide⟩,
    name_cache_as_list_correct xyzCache (by decide) (by decide)⟩

/- Lemmas for the extension-data side table. -/

theorem dictLookup_insert_self {Data : Type} (m : List (String × Data))
    (name : String) (v : Data) : dictLookup (dictInsert m name v) name = some v := by
  induction m with
  | nil => simp [dictInsert, dictLookup, List.find?]
  | cons kv rest ih =>
      by_cases h : kv.1 = name
      · simp [dictInsert, h, dictLookup, List.find?]
      · have hb : (kv.1 == name) = false := beq_false_of_ne h
        simp only [dictInsert, hb, Bool.false_eq_true, if_false]
        simp only [dictLookup, List.find?, hb] at ih ⊢
        exact ih

theorem dictLookup_insert_ne {Data : Type} (m : List (String × Data))
    (name k : String) (v : Data) (h : k ≠ name) :
    dictLookup (dictInsert m name v) k = dictLookup m k := by
  induction m with
  | nil =>
      have hb : (name == k) = false := beq_false_of_ne (Ne.symm h)
      simp [dictInsert, dictLookup, List.find?, hb]
  | cons kv rest ih =>
      by_cases hk : kv.1 = name
      · have hb : (kv.1 == name) = true := beq_iff_eq.mpr hk
        have hbk : (kv.1 == k) = false := beq_false_of_ne (by rw [hk]; exact Ne.symm h)
        have hnk : (name == k) = false := beq_false_of_ne (Ne.symm h)
        simp [dictInsert, hb, dictLookup, List.find?, hbk, hnk]
      · have hb : (kv.1 == name) = false := beq_false_of_ne hk
        simp only [dictInsert, hb, Bool.false_eq_true, if_false]
        by_cases hkk : kv.1 = k
        · have hbk : (kv.1 == k) = true := beq_iff_eq.mpr hkk
          simp [dictLookup, List.find?, hbk]
        · have hbk : (kv.1 == k) = false := beq_false_of_ne hkk
          simp only [dictLookup, List.find?, hbk] at ih ⊢
          exact ih

/-- C10: `get_extension_data` invokes the factory at most once; already
stored data is returned with the state unchanged; with no stored data and no
factory, `None` is returned and nothing is stored; otherwise the factory's
result is stored under the extension's name and returned; and data stored
under any other extension's name is never affected. -/
theorem get_extension_data_correct {Data : Type} (name : String)
    (extension_data : Option (List (String × Data)))
    (factory : Option (Unit → Data)) :
    (get_extension_data name extension_data factory).factory_calls ≤ 1 ∧
    (∀ m d, extension_data = some m → dictLookup m name = some d →
      get_extension_data name extension_data factory = ⟨some d, some m, 0⟩) ∧
    (lookupState extension_data name = none → factory = none →
      get_extension_data name extension_data factory = ⟨none, extension_data, 0⟩) ∧
    (∀ f, lookupState extension_data name = none → factory = some f →
      (get_extension_data name extension_data factory).result = some (f ()) ∧
      lookupState (get_extension_data name extension_data factory).extension_data name =
        some (f ()) ∧
      (get_extension_data name extension_data factory).factory_calls = 1) ∧
    (∀ k, k ≠ name →
      lookupState (get_extension_data name extension_data factory).extension_data k =
        lookupState extension_data k) := by
  rcases extension_data with _ | m
  · rcases factory with _ | f
    · exact ⟨by simp [get_extension_data], by simp, fun _ _ => rfl,
        fun f _ hf => Option.noConfusion hf, fun k _ => rfl⟩
    · refine ⟨by simp [get_extension_data], by simp, ?_, ?_, ?_⟩
      · intro _ hf; exact Option.noConfusion hf
      · intro g _ hf
        cases hf
        exact ⟨rfl, by simp [get_extension_data, lookupState, dictLookup_insert_self], rfl⟩
      · intro k hk
        have hb : (name == k) = false := beq_false_of_ne (Ne.symm hk)
        simp [get_extension_data, lookupState, dictLookup, List.find?, hb]
  · rcases hl : dictLookup m name with _ | d
    · rcases factory with _ | f
      · refine ⟨?_, ?_, ?_, ?_, ?_⟩
        · simp [get_extension_data, hl]
        · intro m' d hm' hd
          cases hm'
          rw [hl] at hd
          exact Option.noConfusion hd
        · intro _ _
          simp [get_extension_data, hl]
        · intro f _ hf
          exact Option.noConfusion hf
        · intro k _
          simp [get_extension_data, hl, lookupState]
      · refine ⟨?_, ?_, ?_, ?_, ?_⟩
        · simp [get_extension_data, hl]
        · intro m' d hm' hd
          cases hm'
          rw [hl] at hd
          exact Option.noConfusion hd
        · intro _ hf
          exact Option.noConfusion hf
        · intro g _ hf
          cases hf
          exact ⟨by simp [get_extension_data, hl],
            by simp [get_extension_data, hl, lookupState, dictLookup_insert_self], by
              simp [get_extension_data, hl]⟩
        · intro k hk
          simp [get_extension_data, hl, lookupState, dictLookup_insert_ne _ _ _ _ hk]
    · refine ⟨?_, ?_, ?_, ?_, ?_⟩
      · simp [get_extension_data, hl]
      · intro m' d' hm' hd
        cases hm'
        rw [hl] at hd
        cases hd
        simp [get_extension_data, hl]
      · intro hn _
        rw [lookupState] at hn
        rw [hl] at hn
        exact Option.noConfusion hn
      · intro f hn _
        rw [lookupState] at hn
        rw [hl] at hn
        exact Option.noConfusion hn
      · intro k _
        simp [get_extension_data, hl, lookupState]

/-- Witness for C10 at a concrete input: one stored entry under another
extension's name, a factory returning 7; the factory result is stored and
returned once, and the other entry survives. -/
theorem get_extension_data_correct_witness :
    (get_extension_data "a" (some [("b", (5 : Nat))]) (some (fun _ => (7 : Nat))) =
        ⟨some 7, some [("b", 5), ("a", 7)], 1⟩) ∧
      lookupState (get_extension_data "a" (some [("b", (5 : Nat))])
          (some (fun _ => (7 : Nat)))).extension_data "b" = some 5 := by
  have h := get_extension_data_correct "a" (some [("b", (5 : Nat))])
    (some (fun _ => (7 : Nat)))
  exact ⟨by decide, ((h.2.2.2.2) "b" (by decide)).trans (by decide)⟩

/- Lemmas about kept-reference key allocation. -/

theorem keysRun_length (n : Nat) : ∀ (k : Int), (keysRun k n).length = n := by
  induction n with
  | zero => intro k; rfl
  | succ n ih => intro k; simp [keysRun, ih]

theorem keysRun_append (n : Nat) : ∀ (m : Nat) (k : Int),
    keysRun k n ++ keysRun (k - Int.ofNat n) m = keysRun k (n + m) := by
  induction n with
  | zero =>
      intro m k
      simp [keysRun]
  | succ n ih =>
      intro m k
      have h1 : k - Int.ofNat (n + 1) = (k - 1) - Int.ofNat n := by
        simp only [Int.ofNat_eq_coe]
        push_cast
        omega
      have h2 : n + 1 + m = (n + m) + 1 := by omega
      rw [h2]
      simp only [keysRun, List.cons_append, h1]
      rw [ih m (k - 1)]

theorem keysRun_mem_bounds (n : Nat) : ∀ (k x : Int), x ∈ keysRun k n →
    k - Int.ofNat n < x ∧ x ≤ k := by
  induction n with
  | zero => intro k x hx; simp [keysRun] at hx
  | succ n ih =>
      intro k x hx
      simp only [keysRun, List.mem_cons] at hx
      rcases hx with rfl | hx
      · constructor
        · simp only [Int.ofNat_eq_coe]; push_cast; omega
        · omega
      · have := ih (k - 1) x hx
        constructor
        · simp only [Int.ofNat_eq_coe] at this ⊢
          push_cast at this ⊢
          omega
        · omega

theorem keysRun_pairwise (n : Nat) : ∀ (k : Int),
    List.Pairwise (fun a b : Int => b < a) (keysRun k n) := by
  induction n with
  | zero => intro k; simp [keysRun]
  | succ n ih =>
      intro k
      simp only [keysRun, List.pairwise_cons]
      exact ⟨fun x hx => by have := keysRun_mem_bounds n (k - 1) x hx; omega, ih (k - 1)⟩

theorem keysRun_nodup (n : Nat) (k : Int) : (keysRun k n).Nodup :=
  (keysRun_pairwise n k).imp (fun h => (ne_of_gt h))

theorem setArgKeys_spec (args : List Argument) : ∀ (k : Int),
    ((setArgKeys args k).1.filter
        (fun a => a.is_out && keep_py_reference a)).map (fun a => a.key) =
      keysRun k ((args.filter (fun a => a.is_out && keep_py_reference a)).length) ∧
    (setArgKeys args k).2 =
      k - Int.ofNat ((args.filter (fun a => a.is_out && keep_py_reference a)).length) := by
  induction args with
  | nil => intro k; simp [setArgKeys, keysRun]
  | cons a rest ih =>
      intro k
      by_cases ha : (a.is_out && keep_py_reference a) = true
      · have ha' : (({ a with key := k } : Argument).is_out &&
            keep_py_reference { a with key := k }) = true := ha
        have ihk := ih (k - 1)
        simp only [setArgKeys, ha, if_true, List.filter_cons, ha', List.map_cons,
          List.length_cons]
        constructor
        · rw [ihk.1]
          rfl
        · rw [ihk.2]
          simp only [Int.ofNat_eq_coe]
          push_cast
          omega
      · have ha' : (a.is_out && keep_py_reference a) = false := by
          rcases Bool.eq_false_or_eq_true (a.is_out && keep_py_reference a) with h | h
          · exact absurd h ha
          · exact h
        simp only [setArgKeys, ha', Bool.false_eq_true, if_false, List.filter_cons]
        exact ih k

theorem catcherPassedKeys_eq (result : Option Argument) (args : List Argument) (k : Int) :
    catcherPassedKeys result args k = keysRun k (keptCount result args) ∧
    catcherNextKey result args k = k - Int.ofNat (keptCount result args) := by
  rcases result with _ | r
  · have h := setArgKeys_spec args k
    simp only [catcherPassedKeys, catcherNextKey, setResultKey, keptCount]
    constructor
    · simp only [List.nil_append]
      rw [h.1]
      simp
    · rw [h.2]
      simp
  · by_cases hk : keep_py_reference r = true
    · have hk' : keep_py_reference ({ r with key := k } : Argument) = true := hk
      have h := setArgKeys_spec args (k - 1)
      simp only [catcherPassedKeys, catcherNextKey, setResultKey, hk, if_true, hk',
        keptCount]
      constructor
      · rw [h.1]
        have : (1 : Nat) +
            (args.filter (fun a => a.is_out && keep_py_reference a)).length =
            ((args.filter (fun a => a.is_out && keep_py_reference a)).length) + 1 := by
          omega
        rw [this]
        rfl
      · rw [h.2]
        simp only [Int.ofNat_eq_coe]
        push_cast
        omega
    · have hk' : keep_py_reference r = false := by
        rcases Bool.eq_false_or_eq_true (keep_py_reference r) with h | h
        · exact absurd h hk
        · exact h
      have h := setArgKeys_spec args k
      simp only [catcherPassedKeys, catcherNextKey, setResultKey, hk',
        Bool.false_eq_true, if_false, keptCount]
      constructor
      · simp only [List.nil_append]
        rw [h.1]
        simp
      · rw [h.2]
        simp

theorem moduleCatcherKeys_spec (calls : List (Option Argument × List Argument)) :
    ∀ (k : Int),
      (moduleCatcherKeys calls k).1 = keysRun k (totalKept calls) ∧
      (moduleCatcherKeys calls k).2 = k - Int.ofNat (totalKept calls) := by
  induction calls with
  | nil =>
      intro k
      refine ⟨rfl, ?_⟩
      simp [moduleCatcherKeys, totalKept]
  | cons c calls ih =>
      intro k
      obtain ⟨hp, hn⟩ := catcherPassedKeys_eq c.1 c.2 k
      have htot : totalKept (c :: calls) = keptCount c.1 c.2 + totalKept calls := by
        simp [totalKept]
      obtain ⟨ih1, ih2⟩ := ih (catcherNextKey c.1 c.2 k)
      constructor
      · show catcherPassedKeys c.1 c.2 k ++
            (moduleCatcherKeys calls (catcherNextKey c.1 c.2 k)).1 =
            keysRun k (totalKept (c :: calls))
        rw [hp, ih1, hn, htot]
        exact keysRun_append _ _ _
      · show (moduleCatcherKeys calls (catcherNextKey c.1 c.2 k)).2 =
            k - Int.ofNat (totalKept (c :: calls))
        rw [ih2, hn, htot]
        simp only [Int.ofNat_eq_coe]
        push_cast
        omega

theorem add_parse_keep {a : Argument} (argName : Nat → String) (i : Int)
    (hk : keep_py_reference a = true) :
    add_parse_result_extra_params a argName i =
      (if i < 0 then ["sipResKey"] else [argName i.toNat ++ "Key"]) := by
  have htype := hk
  simp only [keep_py_reference, Bool.and_eq_true, Bool.or_eq_true, beq_iff_eq] at htype
  rcases htype.1.1 with ((((h | h) | h) | h) | h) | h <;>
    simp [add_parse_result_extra_params, h, hk]

theorem keyParamsFrom_agree (argName : Nat → String) (py : List Argument) :
    ∀ (cpp : List Argument) (i : Nat),
      py.map (fun a => (a.is_out, keep_py_reference a)) =
        cpp.map (fun a => (a.is_out, keep_py_reference a)) →
      parseKeyParamsFrom argName i py = handlerKeyParamsFrom argName i cpp := by
  induction py with
  | nil =>
      intro cpp i h
      cases cpp with
      | nil => rfl
      | cons b rest => simp at h
  | cons a rest ih =>
      intro cpp i h
      cases cpp with
      | nil => simp at h
      | cons b rest' =>
          simp only [List.map_cons, List.cons.injEq, Prod.mk.injEq] at h
          obtain ⟨⟨hout, hkeep⟩, htail⟩ := h
          by_cases hk : (a.is_out && keep_py_reference a) = true
          · have hk2 : (b.is_out && keep_py_reference b) = true := by
              rw [← hout, ← hkeep]; exact hk
            have hkr : keep_py_reference a = true := (Bool.and_eq_true _ _).mp hk |>.2
            simp only [parseKeyParamsFrom, handlerKeyParamsFrom, hk, hk2, if_true]
            rw [add_parse_keep argName (Int.ofNat i) hkr]
            have hnn : ¬(Int.ofNat i < 0) := by
              simp only [Int.ofNat_eq_coe]
              omega
            simp only [hnn, if_false, Int.toNat_ofNat]
            rw [ih rest' (i + 1) htail]
            rfl
          · have hk2 : ¬(b.is_out && keep_py_reference b) = true := by
              rw [← hout, ← hkeep]; exact hk
            simp only [parseKeyParamsFrom, handlerKeyParamsFrom, hk, hk2, if_false]
            exact ih rest' (i + 1) htail

theorem handlerKeyParamsFrom_length (argName : Nat → String) (cpp : List Argument) :
    ∀ (i : Nat), (handlerKeyParamsFrom argName i cpp).length =
      (cpp.filter (fun a => a.is_out && keep_py_reference a)).length := by
  induction cpp with
  | nil => intro i; rfl
  | cons a rest ih =>
      intro i
      by_cases hk : (a.is_out && keep_py_reference a) = true
      · simp [handlerKeyParamsFrom, hk, List.filter_cons, ih]
      · have hk' : (a.is_out && keep_py_reference a) = false := by
          rcases Bool.eq_false_or_eq_true (a.is_out && keep_py_reference a) with h | h
          · exact absurd h hk
          · exact h
        simp [handlerKeyParamsFrom, hk', List.filter_cons, ih]

/-- C2: per module, every kept-reference key emitted by the virtual catchers
is taken from `module.next_key`, decremented by one per allocation, so the
allocated keys form the strictly decreasing, duplicate-free run
`next_key, next_key - 1, ...`; exactly one key is consumed for a kept
returned value and one per kept out-argument; and the literal keys a catcher
passes line up one-to-one with the shared handler's extra `int` key
parameters, which the handler forwards under the same names to the
result-parsing call (given that the handler's C++ and Python signatures
agree on which arguments are kept out-arguments). -/
theorem kept_reference_keys
    (calls : List (Option Argument × List Argument)) (next_key : Int)
    (result : Option Argument) (cpp_args py_args : List Argument)
    (argName : Nat → String)
    (hsig : py_args.map (fun a => (a.is_out, keep_py_reference a)) =
      cpp_args.map (fun a => (a.is_out, keep_py_reference a))) :
    (moduleCatcherKeys calls next_key).1 = keysRun next_key (totalKept calls) ∧
    (moduleCatcherKeys calls next_key).2 = next_key - Int.ofNat (totalKept calls) ∧
    List.Pairwise (fun a b : Int => b < a) (moduleCatcherKeys calls next_key).1 ∧
    (moduleCatcherKeys calls next_key).1.Nodup ∧
    catcherPassedKeys result cpp_args next_key =
      keysRun next_key (keptCount result cpp_args) ∧
    catcherNextKey result cpp_args next_key =
      next_key - Int.ofNat (keptCount result cpp_args) ∧
    (handlerKeyParams result cpp_args argName).length = keptCount result cpp_args ∧
    handlerKeyParams result cpp_args argName = parseKeyParams result py_args argName := by
  obtain ⟨hm1, hm2⟩ := moduleCatcherKeys_spec calls next_key
  obtain ⟨hc1, hc2⟩ := catcherPassedKeys_eq result cpp_args next_key
  refine ⟨hm1, hm2, ?_, ?_, hc1, hc2, ?_, ?_⟩
  · rw [hm1]; exact keysRun_pairwise _ _
  · rw [hm1]; exact keysRun_nodup _ _
  · rcases result with _ | r
    · simp [handlerKeyParams, keptCount, handlerKeyParamsFrom_length]
    · by_cases hk : keep_py_reference r = true
      · simp [handlerKeyParams, keptCount, handlerKeyParamsFrom_length, hk]
        omega
      · have hk' : keep_py_reference r = false := by
          rcases Bool.eq_false_or_eq_true (keep_py_reference r) with h | h
          · exact absurd h hk
          · exact h
        simp [handlerKeyParams, keptCount, handlerKeyParamsFrom_length, hk']
  · rcases result with _ | r
    · simp only [handlerKeyParams, parseKeyParams, List.nil_append]
      exact (keyParamsFrom_agree argName py_args cpp_args 0 hsig).symm
    · by_cases hk : keep_py_reference r = true
      · simp only [handlerKeyParams, parseKeyParams, hk, if_true]
        rw [add_parse_keep argName (-1) hk]
        simp only [show ((-1 : Int) < 0) = True by simp, if_true]
        rw [keyParamsFrom_agree argName py_args cpp_args 0 hsig]
      · have hk' : keep_py_reference r = false := by
          rcases Bool.eq_false_or_eq_true (keep_py_reference r) with h | h
          · exact absurd h hk
          · exact h
        simp only [handlerKeyParams, parseKeyParams, hk', Bool.false_eq_true, if_false,
          List.nil_append]
        exact (keyParamsFrom_agree argName py_args cpp_args 0 hsig).symm

/-- Witness for C2 at a concrete module: two catchers, the first with a kept
string result and one kept out-argument, the second with one kept
out-argument; keys run -1, -2, -3. -/
theorem kept_reference_keys_witness :
    ((([{ type := ArgumentType.STRING, derefs := 1, is_out := true } ] :
        List Argument).map (fun a => (a.is_out, keep_py_reference a)) =
      ([{ type := ArgumentType.STRING, derefs := 1, is_out := true } ] :
        List Argument).map (fun a => (a.is_out, keep_py_reference a)))) ∧
    ((moduleCatcherKeys
        [(some { type := ArgumentType.STRING, derefs := 1 },
          [{ type := ArgumentType.STRING, derefs := 1, is_out := true },
           { type := ArgumentType.INT }]),
         (none, [{ type := ArgumentType.STRING, derefs := 1, is_out := true }])]
        (-1)).1 =
      keysRun (-1)
        (totalKept
          [(some { type := ArgumentType.STRING, derefs := 1 },
            [{ type := ArgumentType.STRING, derefs := 1, is_out := true },
             { type := ArgumentType.INT }]),
           (none, [{ type := ArgumentType.STRING, derefs := 1, is_out := true }])]) ∧
      (moduleCatcherKeys
        [(some { type := ArgumentType.STRING, derefs := 1 },
          [{ type := ArgumentType.STRING, derefs := 1, is_out := true },
           { type := ArgumentType.INT }]),
         (none, [{ type := ArgumentType.STRING, derefs := 1, is_out := true }])]
        (-1)).1 = [-1, -2, -3] ∧
      handlerKeyParams (some { type := ArgumentType.STRING, derefs := 1 })
          [{ type := ArgumentType.STRING, derefs := 1, is_out := true }]
          (fun i => "a" ++ toString i) =
        parseKeyParams (some { type := ArgumentType.STRING, derefs := 1 })
          [{ type := ArgumentType.STRING, derefs := 1, is_out := true }]
          (fun i => "a" ++ toString i) ∧
      handlerKeyParams (some { type := ArgumentType.STRING, derefs := 1 })
          [{ type := ArgumentType.STRING, derefs := 1, is_out := true }]
          (fun i => "a" ++ toString i) = ["sipResKey", "a0Key"]) := by
  have h := kept_reference_keys
    [(some { type := ArgumentType.STRING, derefs := 1 },
      [{ type := ArgumentType.STRING, derefs := 1, is_out := true },
       { type := ArgumentType.INT }]),
     (none, [{ type := ArgumentType.STRING, derefs := 1, is_out := true }])]
    (-1)
    (some { type := ArgumentType.STRING, derefs := 1 })
    [{ type := ArgumentType.STRING, derefs := 1, is_out := true }]
    [{ type := ArgumentType.STRING, derefs := 1, is_out := true }]
    (fun i => "a" ++ toString i) rfl
  exact ⟨rfl, h.1, by decide, h.2.2.2.2.2.2.2, by decide⟩

/-- Counterexample for C5: for a class owned by module 1, requested from
module 0 which imports nothing, `_encoded_type` does not abort — it returns
normally, emitting a two-field encoding in which the module-number field is
silently missing, instead of the claimed diagnostic abort. -/
theorem encoded_type_dangling_counterexample :
    encoded_type ⟨0, []⟩ ⟨3, 1⟩ false = "\x7b3, 0\x7d" ∧
    (encoded_type_fields ⟨0, []⟩ ⟨3, 1⟩ false).length = 2 := by
  constructor
  · rfl
  · rfl

/-- C5 (amended): when the owning module of the class is neither the
current module nor present in the current module's import list, generation
does not abort; `_encoded_type` silently emits the encoding with the
module-number field omitted — just the type number and the last-in-group
flag. -/
theorem encoded_type_dangling (module : EncModule) (iface : EncIfaceFile)
    (last : Bool)
    (hm : iface.module ≠ module.id)
    (hi : importIndex module.all_imports iface.module = none) :
    encoded_type_fields module iface last =
      [toString iface.type_nr, if last then "1" else "0"] ∧
    encoded_type module iface last =
      "\x7b" ++ String.intercalate ", "
        [toString iface.type_nr, if last then "1" else "0"] ++ "\x7d" := by
  have hf : encoded_type_fields module iface last =
      [toString iface.type_nr, if last then "1" else "0"] := by
    simp [encoded_type_fields, hm, hi]
  exact ⟨hf, by rw [encoded_type, hf]⟩

/-- Witness for C5's amended statement: module 0 with no imports, a class
of module 1 with type number 3. -/
theorem encoded_type_dangling_witness :
    (((1 : Nat) ≠ (0 : Nat)) ∧ importIndex ([] : List Nat) 1 = none) ∧
      (encoded_type_fields ⟨0, []⟩ ⟨3, 1⟩ false = [toString (3 : Nat), "0"] ∧
        encoded_type ⟨0, []⟩ ⟨3, 1⟩ false =
          "\x7b" ++ String.intercalate ", " [toString (3 : Nat), "0"] ++ "\x7d") := by
  have h := encoded_type_dangling ⟨0, []⟩ ⟨3, 1⟩ false (by decide) rfl
  exact ⟨⟨by decide, rfl⟩, h⟩

/- Lemmas about the part-assignment loop. -/

theorem partLoop_length (mpp : Nat) :
    ∀ (units : List IfaceFileUnit) (f p : Nat),
      (partLoop mpp units f p).length = units.length := by
  intro units
  induction units with
  | nil => intro f p; rfl
  | cons u rest ih =>
      intro f p
      by_cases h : f = mpp
      · simp [partLoop, h, ih]
      · simp [partLoop, h, ih]

theorem partLoop_map_fst (mpp : Nat) :
    ∀ (units : List IfaceFileUnit) (f p : Nat),
      (partLoop mpp units f p).map (fun q => q.1) = units := by
  intro units
  induction units with
  | nil => intro f p; rfl
  | cons u rest ih =>
      intro f p
      by_cases h : f = mpp
      · simp [partLoop, h, ih]
      · simp [partLoop, h, ih]

theorem partLoop_get (mpp : Nat) (hm : 0 < mpp) :
    ∀ (units : List IfaceFileUnit) (f p k : Nat), 1 ≤ f → f ≤ mpp →
      ∀ (hk : k < units.length),
      (partLoop mpp units f p).get
          ⟨k, by rw [partLoop_length]; exact hk⟩ =
        (units.get ⟨k, hk⟩, p + (f + k) / mpp) := by
  intro units
  induction units with
  | nil => intro f p k _ _ hk; simp at hk
  | cons u rest ih =>
      intro f p k hf1 hf2 hk
      by_cases h : f = mpp
      · cases k with
        | zero =>
            have hdiv : f / mpp = 1 := by
              rw [h, Nat.div_self hm]
            simp [partLoop, if_pos h, hdiv]
        | succ k =>
            have hk' : k < rest.length := by simpa using hk
            have hrec := ih 1 (p + 1) k (by omega) (by omega) hk'
            simp only [List.get_eq_getElem] at hrec ⊢
            simp only [partLoop, if_pos h, List.getElem_cons_succ]
            rw [hrec]
            have harith : p + 1 + (1 + k) / mpp = p + (f + (k + 1)) / mpp := by
              rw [show f + (k + 1) = (1 + k) + mpp by omega, Nat.add_div_right _ hm]
              omega
            rw [harith]
      · have hlt : f < mpp := by omega
        cases k with
        | zero =>
            have hdiv : f / mpp = 0 := Nat.div_eq_of_lt hlt
            simp [partLoop, if_neg h, hdiv]
        | succ k =>
            have hk' : k < rest.length := by simpa using hk
            have hrec := ih (f + 1) p k (by omega) (by omega) hk'
            simp only [List.get_eq_getElem] at hrec ⊢
            simp only [partLoop, if_neg h, List.getElem_cons_succ]
            rw [hrec]
            have harith : f + 1 + k = f + (k + 1) := by omega
            rw [harith]

/-- Counterexample for C9: with two parts and three interface units, the
code assigns the units to parts `[0, 1, 1]` — it fills each part up to
`max_per_part` before opening the next — whereas round-robin distribution
would assign `[0, 1, 0]`. -/
theorem parts_not_round_robin :
    part_assignment demoUnits 0 2 ≠
        round_robin_assignment (module_units demoUnits 0) 2 ∧
      (part_assignment demoUnits 0 2).map (fun q => q.2) = [0, 1, 1] ∧
      (round_robin_assignment (module_units demoUnits 0) 2).map (fun q => q.2) =
        [0, 1, 0] := by
  refine ⟨?_, rfl, rfl⟩
  intro h
  have := congrArg (fun l => l.map (fun q : IfaceFileUnit × Nat => q.2)) h
  simp only at this
  exact absurd this (by decide)

/-- C9 (amended): when a module's code is split into N parts the interface
units are distributed over the part files in contiguous blocks, not
round-robin: with `max_per_part = ceil(nr_files / N)` (where `nr_files`
counts the module-level file plus the units), unit `k` (0-based) is written
into part `(1 + k) / max_per_part`, each part being filled completely
before the next is opened; every unit appears exactly once, whole, in a
single part. -/
theorem parts_block_distribution (iface_files : List IfaceFileUnit)
    (module_id parts : Nat) (hp : 0 < parts) :
    ((part_assignment iface_files module_id parts).map (fun q => q.1) =
        module_units iface_files module_id) ∧
    (∀ k (hk : k < (module_units iface_files module_id).length),
      (part_assignment iface_files module_id parts).get
          ⟨k, by rw [part_assignment, partLoop_length]; exact hk⟩ =
        ((module_units iface_files module_id).get ⟨k, hk⟩,
          (1 + k) / max_per_part (nr_files iface_files module_id) parts)) := by
  have hmpp : 0 < max_per_part (nr_files iface_files module_id) parts := by
    rw [max_per_part]
    have h1 : parts ≤ nr_files iface_files module_id + parts - 1 := by
      rw [nr_files]; omega
    exact (Nat.one_le_div_iff hp).mpr h1
  constructor
  · exact partLoop_map_fst _ _ _ _
  · intro k hk
    have h := partLoop_get (max_per_part (nr_files iface_files module_id) parts)
      hmpp (module_units iface_files module_id) 1 0 k (by omega) (by omega) hk
    simpa using h

/-- Witness for C9's amended statement at the three-unit, two-part
scenario. -/
theorem parts_block_distribution_witness :
    (0 : Nat) < 2 ∧
      ((part_assignment demoUnits 0 2).map (fun q => q.1) =
          module_units demoUnits 0) ∧
      (∀ k (hk : k < (module_units demoUnits 0).length),
        (part_assignment demoUnits 0 2).get
            ⟨k, by rw [part_assignment, partLoop_length]; exact hk⟩ =
          ((module_units demoUnits 0).get ⟨k, hk⟩,
            (1 + k) / max_per_part (nr_files demoUnits 0) 2)) := by
  have h := parts_block_distribution demoUnits 0 2 (by decide)
  exact ⟨by decide, h.1, h.2⟩

/-- Counterexample for C4: the non-empty Python method table for a class
`Klass` with the single plain method `foo` consists of the header, the one
method row and the closing brace — there is no terminator row, and the
final row's fields are not all zero/null. -/
theorem py_method_table_counterexample :
    py_method_table [demoMember] "Klass" =
      (1, ["\n\nstatic PyMethodDef methods_Klass[] = \x7b\n",
           "    \x7bsipName_foo, meth_Klass_foo, METH_VARARGS, SIP_NULLPTR\x7d\n",
           "\x7d;\n"]) ∧
    (py_method_fields "Klass" demoMember).all null_field = false := by
  exact ⟨by decide, by decide⟩

/-- C4 (amended): every non-empty table written through
`_write_instances_table` (the instance-by-kind tables) ends with a
terminator row whose fields are all zero, and an empty instance list
produces no table at all, `_optional_ptr` substituting a null reference;
the Python method tables, however, carry no terminator row — each member
contributes exactly its own row and the entry count is recorded instead,
an empty member list producing no table and the descriptor referencing
`0, SIP_NULLPTR`. -/
theorem table_sentinel_behaviour (scope : Option String)
    (instances : List (List String)) (tmpl : String → String → String)
    (members : List Member) (scope_name ptr_name : String) :
    (instances ≠ [] →
      (write_instances_table scope instances tmpl).1 = true ∧
      ∃ rows, (write_instances_table scope instances tmpl).2 =
        rows ++ ["    \x7b" ++ String.intercalate ", "
            (List.replicate ((instances.head?.getD []).length) "0") ++
          "\x7d\n\x7d;\n"] ∧
        rows.length = instances.length + 1 ∧
        (List.replicate ((instances.head?.getD []).length) "0").all null_field = true) ∧
    write_instances_table scope [] tmpl = (false, []) ∧
    optional_ptr false ptr_name = "SIP_NULLPTR" ∧
    optional_ptr true ptr_name = ptr_name ∧
    py_method_table [] scope_name = (0, []) ∧
    method_table_ref 0 ptr_name = "0, SIP_NULLPTR" ∧
    (members ≠ [] →
      (py_method_table members scope_name).1 = members.length ∧
      (py_method_table members scope_name).2 =
        ("\n\nstatic PyMethodDef methods_" ++ scope_name ++ "[] = \x7b\n") ::
          (py_method_rows scope_name members ++ ["\x7d;\n"])) := by
  refine ⟨?_, rfl, rfl, rfl, rfl, rfl, ?_⟩
  · intro hne
    match instances with
    | [] => exact absurd rfl hne
    | inst0 :: rest =>
        refine ⟨rfl,
          ("\n\n" ++ tmpl (match scope with | none => "module" | some _ => "type")
              (match scope with | none => "" | some s => "_" ++ s) ++ " = \x7b\n") ::
            (inst0 :: rest).map
              (fun inst => "    \x7b" ++ String.intercalate ", " inst ++ "\x7d,\n"),
          ?_, ?_, ?_⟩
        · rfl
        · simp
        · rw [List.all_eq_true]
          intro x hx
          rcases List.eq_of_mem_replicate hx with rfl
          decide
  · intro hne
    match members with
    | [] => exact absurd rfl hne
    | m :: rest => exact ⟨rfl, rfl⟩

/-- Witness for C4's amended statement: a one-row instance table gains the
`{0, 0}` sentinel, the empty case writes nothing, and the one-member method
table reports one entry. -/
theorem table_sentinel_behaviour_witness :
    (write_instances_table none [["n", "v"]] (fun a b => a ++ b)).1 = true ∧
    write_instances_table (none : Option String) ([] : List (List String))
        (fun a b => a ++ b) = (false, []) ∧
    (py_method_table [demoMember] "Klass").1 = 1 := by
  have h := table_sentinel_behaviour none [["n", "v"]] (fun a b => a ++ b)
    [demoMember] "Klass" "typeInstances"
  exact ⟨(h.1 (by decide)).1, h.2.1, ((h.2.2.2.2.2.2) (by decide)).1⟩

/- Lemmas for the method-member selection. -/

instance memberLE_isTotal :
    IsTotal Member (fun a b => lexLE a.py_name.name.data b.py_name.name.data = true) :=
  ⟨fun _ _ => lexLE_total _ _⟩

instance memberLE_isTrans :
    IsTrans Member (fun a b => lexLE a.py_name.name.data b.py_name.name.data = true) :=
  ⟨fun _ _ _ hab hbc => lexLE_trans hab hbc⟩

theorem get_method_members_loop_eq_filter (members : List Member) :
    get_method_members_loop members =
      members.filter (fun x => !x.py_slot.isSome && x.overloads.any overload_needs_entry) := by
  induction members with
  | nil => rfl
  | cons m rest ih =>
      by_cases hs : m.py_slot.isSome = true
      · have hcond : ¬(!m.py_slot.isSome && m.overloads.any overload_needs_entry) = true := by
          rw [hs]
          simp
        rw [@List.filter_cons_of_neg _ (fun x : Member => !x.py_slot.isSome && x.overloads.any overload_needs_entry) m rest hcond]
        have hloop : get_method_members_loop (m :: rest) = get_method_members_loop rest := by
          simp [get_method_members_loop, hs]
        rw [hloop, ih]
      · have hs' : m.py_slot.isSome = false := by
          rcases Bool.eq_false_or_eq_true m.py_slot.isSome with h | h
          · exact absurd h hs
          · exact h
        by_cases ha : m.overloads.any overload_needs_entry = true
        · have hcond : (!m.py_slot.isSome && m.overloads.any overload_needs_entry) = true := by
            rw [hs', ha]
            rfl
          rw [@List.filter_cons_of_pos _ (fun x : Member => !x.py_slot.isSome && x.overloads.any overload_needs_entry) m rest hcond]
          have hloop : get_method_members_loop (m :: rest) =
              m :: get_method_members_loop rest := by
            simp [get_method_members_loop, hs', ha]
          rw [hloop, ih]
        · have ha' : m.overloads.any overload_needs_entry = false := by
            rcases Bool.eq_false_or_eq_true (m.overloads.any overload_needs_entry)
              with h | h
            · exact absurd h ha
            · exact h
          have hcond : ¬(!m.py_slot.isSome && m.overloads.any overload_needs_entry) = true := by
            rw [ha']
            simp
          rw [@List.filter_cons_of_neg _ (fun x : Member => !x.py_slot.isSome && x.overloads.any overload_needs_entry) m rest hcond]
          have hloop : get_method_members_loop (m :: rest) =
              get_method_members_loop rest := by
            simp [get_method_members_loop, hs', ha']
          rw [hloop, ih]

theorem overload_needs_entry_iff (o : Overload) :
    overload_needs_entry o = true ↔
      o.pyqt_is_signal = false ∧
        ¬(o.access_specifier = AccessSpecifier.PRIVATE ∧ o.is_abstract = true) := by
  rw [overload_needs_entry]
  simp only [Bool.and_eq_true, Bool.not_eq_true', Bool.and_eq_false_iff,
    decide_eq_false_iff_not]
  constructor
  · intro ⟨h1, h2⟩
    refine ⟨h1, ?_⟩
    intro ⟨ha, hb⟩
    rcases h2 with h | h
    · exact h ha
    · rw [hb] at h; exact Bool.noConfusion h
  · intro ⟨h1, h2⟩
    refine ⟨h1, ?_⟩
    by_cases ha : o.access_specifier = AccessSpecifier.PRIVATE
    · right
      rcases Bool.eq_false_or_eq_true o.is_abstract with h | h
      · exact absurd ⟨ha, h⟩ h2
      · exact h
    · left; exact ha

/-- C8: for a class scope, `_get_method_members` yields exactly one entry
per member whose exposed name is not an operator slot and which has at
least one overload that is neither a signal nor an abstract private
function, and the entries are sorted by exposed Python name; exposed names
stay duplicate-free when the input's are. -/
theorem get_method_members_correct (members : List Member)
    (hnodup : (members.map (fun m => m.py_name.name)).Nodup) :
    (∀ m, m ∈ get_method_members members ↔
      m ∈ members ∧ m.py_slot = none ∧
        ∃ o ∈ m.overloads, o.pyqt_is_signal = false ∧
          ¬(o.access_specifier = AccessSpecifier.PRIVATE ∧ o.is_abstract = true)) ∧
    List.Pairwise (fun a b => lexLE a.py_name.name.data b.py_name.name.data = true)
      (get_method_members members) ∧
    ((get_method_members members).map (fun m => m.py_name.name)).Nodup := by
  have hperm : (get_method_members members).Perm (get_method_members_loop members) :=
    List.perm_insertionSort _ _
  refine ⟨?_, ?_, ?_⟩
  · intro m
    rw [hperm.mem_iff, get_method_members_loop_eq_filter, List.mem_filter]
    constructor
    · intro ⟨hm, hp⟩
      simp only [Bool.and_eq_true, Bool.not_eq_true', List.any_eq_true] at hp
      obtain ⟨hslot, o, ho, hneed⟩ := hp
      refine ⟨hm, ?_, o, ho, (overload_needs_entry_iff o).mp hneed⟩
      rcases h : m.py_slot with _ | v
      · rfl
      · rw [h] at hslot; exact Bool.noConfusion hslot
    · intro ⟨hm, hslot, o, ho, hneed⟩
      refine ⟨hm, ?_⟩
      simp only [Bool.and_eq_true, Bool.not_eq_true', List.any_eq_true]
      exact ⟨by rw [hslot]; rfl, o, ho, (overload_needs_entry_iff o).mpr hneed⟩
  · exact List.sorted_insertionSort _ _
  · have h1 : (get_method_members_loop members).Sublist members := by
      rw [get_method_members_loop_eq_filter]
      exact List.filter_sublist _
    have h2 : ((get_method_members_loop members).map
        (fun m => m.py_name.name)).Nodup :=
      (h1.map _).nodup hnodup
    exact (hperm.map _).nodup_iff.mpr h2

/-- Witness for C8: three members — `beta` (plain public), `alpha`
(public), `gamma` (signal-only) — give the sorted table `[alpha, beta]`. -/
theorem get_method_members_correct_witness :
    (([{ py_name := { name := "beta", used := true },
         overloads := [{ access_specifier := AccessSpecifier.PUBLIC }] },
       { py_name := { name := "alpha", used := true },
         overloads := [{ access_specifier := AccessSpecifier.PUBLIC }] },
       { py_name := { name := "gamma", used := true },
         overloads := [{ access_specifier := AccessSpecifier.PUBLIC,
                         pyqt_is_signal := true }] }] : List Member).map
        (fun m => m.py_name.name)).Nodup ∧
    List.Pairwise (fun a b => lexLE a.py_name.name.data b.py_name.name.data = true)
      (get_method_members
        [{ py_name := { name := "beta", used := true },
           overloads := [{ access_specifier := AccessSpecifier.PUBLIC }] },
         { py_name := { name := "alpha", used := true },
           overloads := [{ access_specifier := AccessSpecifier.PUBLIC }] },
         { py_name := { name := "gamma", used := true },
           overloads := [{ access_specifier := AccessSpecifier.PUBLIC,
                           pyqt_is_signal := true }] }]) ∧
    (get_method_members
        [{ py_name := { name := "beta", used := true },
           overloads := [{ access_specifier := AccessSpecifier.PUBLIC }] },
         { py_name := { name := "alpha", used := true },
           overloads := [{ access_specifier := AccessSpecifier.PUBLIC }] },
         { py_name := { name := "gamma", used := true },
           overloads := [{ access_specifier := AccessSpecifier.PUBLIC,
                           pyqt_is_signal := true }] }]).map
      (fun m => m.py_name.name) = ["alpha", "beta"] := by
  have h := get_method_members_correct
    [{ py_name := { name := "beta", used := true },
       overloads := [{ access_specifier := AccessSpecifier.PUBLIC }] },
     { py_name := { name := "alpha", used := true },
       overloads := [{ access_specifier := AccessSpecifier.PUBLIC }] },
     { py_name := { name := "gamma", used := true },
       overloads := [{ access_specifier := AccessSpecifier.PUBLIC,
                       pyqt_is_signal := true }] }] (by decide)
  exact ⟨by decide, h.2.1, by decide⟩

/-- C6: for C++ bindings, a directly-owned wrapped-class or named-enum
variable with no custom access code and no pointer indirection is excluded
from the static class-instance table and is added by an inline statement
during module initialisation instead; with access code or indirection it
stays in the static table and is not added inline. -/
theorem class_instance_inline_split (spec : GenSpec) (scope : Option Nat)
    (v : Variable)
    (hcpp : spec.c_bindings = false)
    (hv : v ∈ variables_in_scope spec scope true)
    (hkind : v.type.type = ArgumentType.CLASS ∨
      (v.type.type = ArgumentType.ENUM ∧ v.type.enum_named = true)) :
    ((v.access_code = none ∧ v.type.derefs = 0) →
      v ∉ class_instances_vars spec scope ∧ v ∈ types_inline_vars spec) ∧
    ((v.access_code ≠ none ∨ v.type.derefs ≠ 0) →
      v ∈ class_instances_vars spec scope ∧ v ∉ types_inline_vars spec) := by
  have hv' := hv
  rw [variables_in_scope, List.mem_filter] at hv'
  obtain ⟨hvmem, hcond⟩ := hv'
  simp only [Bool.and_eq_true, Bool.not_eq_true', Bool.and_eq_false_iff, beq_iff_eq]
    at hcond
  have hmod : v.module = spec.module_id := hcond.1.2
  have hnh : v.needs_handler = false := by
    rcases hcond.2 with h | h
    · exact Bool.noConfusion h
    · exact h
  have hkindb : (v.type.type == ArgumentType.CLASS ||
      (v.type.type == ArgumentType.ENUM && v.type.enum_named)) = true := by
    rcases hkind with h | ⟨h1, h2⟩
    · simp [h]
    · simp [h1, h2]
  have hkindb3 : (v.type.type == ArgumentType.CLASS ||
      v.type.type == ArgumentType.MAPPED || v.type.type == ArgumentType.ENUM) = true := by
    rcases hkind with h | ⟨h1, _⟩
    · simp [h]
    · simp [h1]
  constructor
  · intro ⟨hac, hd⟩
    constructor
    · intro hmem
      rw [class_instances_vars, List.mem_filter] at hmem
      have hc := hmem.2
      rw [hcpp, hac, hd] at hc
      simp at hc
    · rw [types_inline_vars, List.mem_filter]
      refine ⟨hvmem, ?_⟩
      rw [hcpp, hac, hd, hnh, hmod]
      simp [hkindb3]
  · intro h2
    constructor
    · rw [class_instances_vars, List.mem_filter]
      refine ⟨hv, ?_⟩
      rw [hkindb]
      have hinner : (!spec.c_bindings && v.access_code.isNone &&
          (v.type.derefs == 0)) = false := by
        rcases h2 with h | h
        · have : v.access_code.isNone = false := by
            rcases hx : v.access_code with _ | c
            · exact absurd hx h
            · rfl
          simp [this]
        · have : (v.type.derefs == 0) = false := by
            rcases Bool.eq_false_or_eq_true (v.type.derefs == 0) with hx | hx
            · exact absurd (beq_iff_eq.mp hx) h
            · exact hx
          simp [this]
      rw [hinner]
      rfl
    · intro hmem
      rw [types_inline_vars, List.mem_filter] at hmem
      have hc := hmem.2
      have hinner : (spec.c_bindings || v.access_code.isSome ||
          !(v.type.derefs == 0)) = true := by
        rcases h2 with h | h
        · have : v.access_code.isSome = true := by
            rcases hx : v.access_code with _ | c
            · exact absurd hx h
            · rfl
          simp [this]
        · have : (v.type.derefs == 0) = false := by
            rcases Bool.eq_false_or_eq_true (v.type.derefs == 0) with hx | hx
            · exact absurd (beq_iff_eq.mp hx) h
            · exact hx
          simp [this]
      rw [hinner] at hc
      simp at hc

/-- Witness for C6: module 0, C++ bindings; `cv` (a plain class instance)
goes inline and not into the static table, `pv` (a class pointer) goes
into the static table and not inline. -/
theorem class_instance_inline_split_witness :
    (({ module_id := 0,
        variables_ :=
          [{ py_name := { name := "cv", used := true },
             type := { type := ArgumentType.CLASS }, module := 0 },
           { py_name := { name := "pv", used := true },
             type := { type := ArgumentType.CLASS, derefs := 1 }, module := 0 }] } :
      GenSpec).c_bindings = false) ∧
    (({ py_name := { name := "cv", used := true },
        type := { type := ArgumentType.CLASS }, module := 0 } : Variable) ∉
      class_instances_vars
        { module_id := 0,
          variables_ :=
            [{ py_name := { name := "cv", used := true },
               type := { type := ArgumentType.CLASS }, module := 0 },
             { py_name := { name := "pv", used := true },
               type := { type := ArgumentType.CLASS, derefs := 1 }, module := 0 }] }
        none) ∧
    (({ py_name := { name := "cv", used := true },
        type := { type := ArgumentType.CLASS }, module := 0 } : Variable) ∈
      types_inline_vars
        { module_id := 0,
          variables_ :=
            [{ py_name := { name := "cv", used := true },
               type := { type := ArgumentType.CLASS }, module := 0 },
             { py_name := { name := "pv", used := true },
               type := { type := ArgumentType.CLASS, derefs := 1 }, module := 0 }] }) ∧
    (({ py_name := { name := "pv", used := true },
        type := { type := ArgumentType.CLASS, derefs := 1 }, module := 0 } : Variable) ∈
      class_instances_vars
        { module_id := 0,
          variables_ :=
            [{ py_name := { name := "cv", used := true },
               type := { type := ArgumentType.CLASS }, module := 0 },
             { py_name := { name := "pv", used := true },
               type := { type := ArgumentType.CLASS, derefs := 1 }, module := 0 }] }
        none) ∧
    (({ py_name := { name := "pv", used := true },
        type := { type := ArgumentType.CLASS, derefs := 1 }, module := 0 } : Variable) ∉
      types_inline_vars
        { module_id := 0,
          variables_ :=
            [{ py_name := { name := "cv", used := true },
               type := { type := ArgumentType.CLASS }, module := 0 },
             { py_name := { name := "pv", used := true },
               type := { type := ArgumentType.CLASS, derefs := 1 }, module := 0 }] }) := by
  have h1 := class_instance_inline_split
    { module_id := 0,
      variables_ :=
        [{ py_name := { name := "cv", used := true },
           type := { type := ArgumentType.CLASS }, module := 0 },
         { py_name := { name := "pv", used := true },
           type := { type := ArgumentType.CLASS, derefs := 1 }, module := 0 }] }
    none
    { py_name := { name := "cv", used := true },
      type := { type := ArgumentType.CLASS }, module := 0 }
    rfl (by decide) (Or.inl rfl)
  have h2 := class_instance_inline_split
    { module_id := 0,
      variables_ :=
        [{ py_name := { name := "cv", used := true },
           type := { type := ArgumentType.CLASS }, module := 0 },
         { py_name := { name := "pv", used := true },
           type := { type := ArgumentType.CLASS, derefs := 1 }, module := 0 }] }
    none
    { py_name := { name := "pv", used := true },
      type := { type := ArgumentType.CLASS, derefs := 1 }, module := 0 }
    rfl (by decide) (Or.inl rfl)
  obtain ⟨ha, hb⟩ := h1.1 ⟨rfl, rfl⟩
  obtain ⟨hc, hd⟩ := h2.2 (Or.inr (by decide))
  exact ⟨rfl, ha, hb, hc, hd⟩

/-- C7: at module level, named-enum members go into the dedicated
enum-member table only below ABI 13.0 — from 13.0 on that table is not
generated (`nr_enum_members = -1`) and the members are emitted at the
start of the int-instance table in needed-types order — while
anonymous-enum members always go into the int-instance table. -/
theorem enum_member_table_placement (spec : GenSpec) :
    (abi_ge spec.abi_version 13 0 = true →
      module_enum_member_table spec = (-1, []) ∧
      int_instances_entries spec none =
        named_enum_int_entries spec none ++
          (int_var_entries spec none ++ anon_enum_int_entries spec none)) ∧
    (abi_ge spec.abi_version 13 0 = false →
      (module_enum_member_table spec).1 =
        Int.ofNat (collectGlobalEnumMembers spec).length ∧
      (module_enum_member_table spec).2.Perm (collectGlobalEnumMembers spec) ∧
      int_instances_entries spec none =
        int_var_entries spec none ++ anon_enum_int_entries spec none) := by
  constructor
  · intro habi
    constructor
    · rw [module_enum_member_table, if_pos habi]
    · rw [int_instances_entries, if_pos habi]
      have : (abi_ge spec.abi_version 13 0 || (none : Option Nat) == none) = true := by
        rw [habi]; rfl
      rw [if_pos this, List.append_assoc]
  · intro habi
    have hne : ¬(abi_ge spec.abi_version 13 0 = true) := by
      rw [habi]; exact Bool.false_ne_true
    have hmodule : module_enum_member_table spec =
        (Int.ofNat (enum_member_table_global spec).1,
          (enum_member_table_global spec).2) := by
      rw [module_enum_member_table, if_neg hne]
      rfl
    refine ⟨?_, ?_, ?_⟩
    · rw [hmodule]
      by_cases hz : (collectGlobalEnumMembers spec).length = 0
      · rw [enum_member_table_global, if_pos hz, hz]
      · rw [enum_member_table_global, if_neg hz]
    · rw [hmodule]
      by_cases hz : (collectGlobalEnumMembers spec).length = 0
      · rw [enum_member_table_global, if_pos hz]
        rw [List.length_eq_zero] at hz
        rw [hz]
      · rw [enum_member_table_global, if_neg hz]
        exact (List.perm_insertionSort _ _).trans (List.perm_insertionSort _ _)
    · rw [int_instances_entries,
        if_neg (by rw [habi]; exact Bool.false_ne_true)]
      have : (abi_ge spec.abi_version 13 0 || (none : Option Nat) == none) = true := by
        simp
      rw [if_pos this]
      rfl

/-- Witness for C7: one named and one anonymous module-level enum, checked
at ABI 12.8 and at ABI 13.0. -/
theorem enum_member_table_placement_witness :
    (abi_ge (12, 8) 13 0 = false ∧ abi_ge (13, 0) 13 0 = true) ∧
    ((module_enum_member_table
        { module_id := 0, abi_version := (12, 8),
          enums := [{ module := 0, fq_named := true, type_nr := 2,
                      members := [{ py_name := { name := "Red", used := true } }] },
                    { module := 0,
                      members := [{ py_name := { name := "Anon", used := true } }] }] }).1 =
      Int.ofNat 1 ∧
    module_enum_member_table
        { module_id := 0, abi_version := (13, 0),
          enums := [{ module := 0, fq_named := true, type_nr := 2,
                      members := [{ py_name := { name := "Red", used := true } }] },
                    { module := 0,
                      members := [{ py_name := { name := "Anon", used := true } }] }] } =
      (-1, []) ∧
    int_instances_entries
        { module_id := 0, abi_version := (12, 8),
          enums := [{ module := 0, fq_named := true, type_nr := 2,
                      members := [{ py_name := { name := "Red", used := true } }] },
                    { module := 0,
                      members := [{ py_name := { name := "Anon", used := true } }] }] }
        none = [("sipName_Anon", "")]) := by
  have h1 := enum_member_table_placement
    { module_id := 0, abi_version := (12, 8),
      enums := [{ module := 0, fq_named := true, type_nr := 2,
                  members := [{ py_name := { name := "Red", used := true } }] },
                { module := 0,
                  members := [{ py_name := { name := "Anon", used := true } }] }] }
  have h2 := enum_member_table_placement
    { module_id := 0, abi_version := (13, 0),
      enums := [{ module := 0, fq_named := true, type_nr := 2,
                  members := [{ py_name := { name := "Red", used := true } }] },
                { module := 0,
                  members := [{ py_name := { name := "Anon", used := true } }] }] }
  obtain ⟨ha, _, _⟩ := h1.2 (by decide)
  obtain ⟨hb, _⟩ := h2.1 (by decide)
  refine ⟨⟨by decide, by decide⟩, ?_, hb, by decide⟩
  rw [ha]
  decide

/- Disequality toolkit for distinguishing generated chunks that contain
opaque formatter output. -/

theorem str_ne_of_head {s t : String} {a b : Char} (hs : s.data.head? = some a)
    (ht : t.data.head? = some b) (hab : a ≠ b) : s ≠ t := by
  intro he
  rw [he, ht] at hs
  exact hab (Option.some.inj hs).symm

theorem str_ne_of_mem {c : Char} {s t : String} (hs : c ∈ s.data)
    (ht : c ∉ t.data) : s ≠ t := by
  intro he
  rw [he] at hs
  exact ht hs

theorem str_ne_of_no_nl {s t : String} (hs : no_nl s) (ht : nlChar ∈ t.data) :
    s ≠ t := by
  intro he
  rw [he] at hs
  exact hs ht

theorem str_ne_of_no_nl_start {cc rest t : String} (hnl : no_nl cc)
    (hhead : t.data.head? = some nlChar) (hrest : rest ≠ t) : cc ++ rest ≠ t := by
  intro he
  have hdata : cc.data ++ rest.data = t.data := by
    rw [← String.data_append, he]
  rcases hc : cc.data with _ | ⟨c, cs⟩
  · rw [hc, List.nil_append] at hdata
    exact hrest (String.ext hdata)
  · rw [hc] at hdata
    rw [← hdata] at hhead
    simp only [List.cons_append, List.head?_cons, Option.some.injEq] at hhead
    simp only [no_nl, hc] at hnl
    exact hnl (hhead ▸ List.mem_cons_self c cs)

theorem no_nl_append {s t : String} (hs : no_nl s) (ht : no_nl t) :
    no_nl (s ++ t) := by
  intro hm
  rw [String.data_append] at hm
  rcases List.mem_append.mp hm with h | h
  · exact hs h
  · exact ht h

theorem mem_of_ite_list {P : Prop} [Decidable P] {c : String} {l : List String}
    (h : c ∈ (if P then l else [])) : c ∈ l := by
  split at h
  · exact h
  · cases h

theorem vhKeyDeclChunks_ne (argName : Nat → String) :
    ∀ (i : Nat) (args : List Argument) (c : String),
      c ∈ vhKeyDeclChunks argName i args → c ≠ checkChunk ∧ c ≠ abortChunk := by
  intro i args
  induction args generalizing i with
  | nil => intro c hc; cases hc
  | cons a rest ih =>
      intro c hc
      rw [vhKeyDeclChunks] at hc
      split at hc
      · rcases List.mem_cons.mp hc with hc | hc
        · subst hc
          constructor
          · exact str_ne_of_head rfl rfl (by decide)
          · exact str_ne_of_head rfl rfl (by decide)
        · exact ih (i + 1) c hc
      · exact ih (i + 1) c hc

theorem vhHead_ne (h : VirtualHandlerModel) (fmt : VHFmt) :
    ∀ c ∈ vhHead h fmt, c ≠ checkChunk ∧ c ≠ abortChunk := by
  intro c hc
  rw [vhHead] at hc
  simp only [List.mem_append, List.mem_singleton] at hc
  rcases hc with ((((hc | hc) | hc) | hc) | hc)
  · subst hc
    have hy : ('y' : Char) ∈ ("\n" ++ fmt.result_decl ++ " sipVH_" ++ h.module_py_name ++
        "_" ++ toString h.handler_nr ++
        "(sip_gilstate_t sipGILState, sipVirtErrorHandlerFunc sipErrorHandler, sipSimpleWrapper *sipPySelf, PyObject *sipMethod").data := by
      rw [String.data_append]
      exact List.mem_append_right _ (by decide)
    exact ⟨str_ne_of_mem hy (by decide), str_ne_of_mem hy (by decide)⟩
  · have hc := mem_of_ite_list hc
    rcases List.mem_singleton.mp hc with hc
    subst hc
    exact ⟨str_ne_of_head rfl rfl (by decide), str_ne_of_head rfl rfl (by decide)⟩
  · have hc := mem_of_ite_list hc
    rcases List.mem_append.mp hc with hc | hc
    · rcases List.mem_singleton.mp hc with hc
      subst hc
      exact ⟨by decide, by decide⟩
    · have hc := mem_of_ite_list hc
      rcases List.mem_singleton.mp hc with hc
      subst hc
      exact ⟨by decide, by decide⟩
  · exact vhKeyDeclChunks_ne fmt.argName 0 h.cpp_args c hc
  · subst hc
    exact ⟨by decide, by decide⟩

theorem result_instance_code_eq {r : VHResult} {c : String}
    (h : result_instance_code r = some c) : r.instance_code = some c := by
  rw [result_instance_code] at h
  split at h
  · exact h
  · cases h

theorem vhSipresValue_cases (r : VHResult) :
    vhSipresValue r = " = *sipCpp" ∨ vhSipresValue r = r.ctor_call ∨
    vhSipresValue r = "" ∨ vhSipresValue r = " = 0" ∨
    vhSipresValue r = " = " ++ r.cast_zero_str := by
  rw [vhSipresValue]
  split
  · split
    · exact Or.inl rfl
    · split
      · exact Or.inr (Or.inl rfl)
      · exact Or.inr (Or.inr (Or.inl rfl))
  · split
    · exact Or.inr (Or.inr (Or.inr (Or.inl rfl)))
    · exact Or.inr (Or.inr (Or.inr (Or.inr rfl)))

theorem vhSipresValue_ne {r : VHResult} (hcc : no_nl r.ctor_call)
    (hctor : r.ctor_call ++ ";\n" ≠ abortChunk) :
    vhSipresValue r ++ ";\n" ≠ checkChunk ∧ vhSipresValue r ++ ";\n" ≠ abortChunk := by
  rcases vhSipresValue_cases r with hv | hv | hv | hv | hv <;> rw [hv]
  · exact ⟨by decide, by decide⟩
  · exact ⟨str_ne_of_no_nl_start hcc (by decide) (by decide), hctor⟩
  · exact ⟨by decide, by decide⟩
  · exact ⟨by decide, by decide⟩
  · constructor
    · exact str_ne_of_head rfl rfl (by decide)
    · have hm : ('=' : Char) ∈ ((" = " ++ r.cast_zero_str) ++ ";\n").data := by
        rw [String.data_append, String.data_append]
        exact List.mem_append_left _ (List.mem_append_left _ (by decide))
      exact str_ne_of_mem hm (by decide)

theorem vhResultSetup_ne (h : VirtualHandlerModel) (fmt : VHFmt)
    (hclean : vhOpaqueClean h fmt) :
    ∀ c ∈ vhResultSetup h fmt, c ≠ checkChunk ∧ c ≠ abortChunk := by
  obtain ⟨-, hrpd, -, hcc, -, hic, hctor⟩ := hclean
  intro c hc
  rw [vhResultSetup] at hc
  split at hc
  · simp only [List.mem_append, List.mem_singleton] at hc
    rcases hc with ((((((hc | hc) | hc) | hc) | hc) | hc) | hc)
    · cases hric : result_instance_code h.result with
      | none => rw [hric] at hc; cases hc
      | some code =>
          rw [hric] at hc
          rcases List.mem_cons.mp hc with hc | hc
          · subst hc
            have hN : ('N' : Char) ∈ ("    static " ++ fmt.result_plain_decl ++
                " *sipCpp = SIP_NULLPTR;\n\n    if (!sipCpp)\n    \x7b\n").data := by
              rw [String.data_append]
              exact List.mem_append_right _ (by decide)
            exact ⟨str_ne_of_mem hN (by decide), str_ne_of_mem hN (by decide)⟩
          · rcases List.mem_cons.mp hc with hc | hc
            · rw [hc]
              exact hic code (result_instance_code_eq hric)
            · rcases List.mem_singleton.mp hc with hc
              subst hc
              exact ⟨by decide, by decide⟩
    · subst hc
      exact ⟨by decide, by decide⟩
    · have hc := mem_of_ite_list hc
      rcases List.mem_singleton.mp hc with hc
      subst hc
      exact ⟨by decide, by decide⟩
    · subst hc
      exact ⟨str_ne_of_no_nl hrpd (by decide), str_ne_of_no_nl hrpd (by decide)⟩
    · subst hc
      have he : ('e' : Char) ∈ (" " ++
          (if result_is_reference h.result then "*" else "") ++ "sipRes").data := by
        rw [String.data_append]
        exact List.mem_append_right _ (by decide)
      exact ⟨str_ne_of_mem he (by decide), str_ne_of_mem he (by decide)⟩
    · subst hc
      exact vhSipresValue_ne hcc hctor
    · have hc := mem_of_ite_list hc
      rcases List.mem_singleton.mp hc with hc
      subst hc
      have hu : ('u' : Char) ∈
          ("\n    if (sipRes)\n    \x7b\n        // Return any previous result to the heap.\n        sipFree(" ++
            (if h.result.is_const then "const_cast<wchar_t *>(sipRes)" else "sipRes") ++
            ");\n        sipRes = SIP_NULLPTR;\n    \x7d\n\n").data := by
        rw [String.data_append, String.data_append]
        exact List.mem_append_left _ (List.mem_append_left _ (by decide))
      exact ⟨str_ne_of_mem hu (by decide), str_ne_of_mem hu (by decide)⟩
  · cases hc

theorem default_instance_return_fallthrough {r : VHResult} {di : List String}
    (hdi : (if r.type = ArgumentType.MAPPED ∧ r.derefs = 0 then
        Except.ok (["        return "] ++ (if r.is_reference then ["*new "] else []) ++
          [r.type_plain ++ "()", ";\n"])
      else if r.type = ArgumentType.CLASS ∧ r.derefs = 0 then
        if r.default_ctor_ok then
          Except.ok (["        return "] ++ (if r.is_reference then ["*new "] else []) ++
            [r.type_plain, r.ctor_call, ";\n"])
        else Except.error (r.class_name ++ " must have a default constructor")
      else Except.ok ["        return ", r.cast_zero_str, ";\n"] :
        Except String (List String)) = .ok di)
    (htp : no_nl r.type_plain) (hcc : no_nl r.ctor_call) (hcz : no_nl r.cast_zero_str) :
    ∀ c ∈ di, c ≠ checkChunk ∧ c ≠ abortChunk := by
  split at hdi
  · have hdi' := Except.ok.inj hdi
    subst hdi'
    intro c hc
    simp only [List.mem_append, List.mem_cons, List.not_mem_nil, or_false] at hc
    rcases hc with (hc | hc) | hc | hc
    · subst hc
      exact ⟨by decide, by decide⟩
    · have hc := mem_of_ite_list hc
      rcases List.mem_singleton.mp hc with hc
      subst hc
      exact ⟨by decide, by decide⟩
    · subst hc
      have hchunk : no_nl (r.type_plain ++ "()") :=
        no_nl_append htp (by intro hm; exact absurd hm (by decide))
      exact ⟨str_ne_of_no_nl hchunk (by decide), str_ne_of_no_nl hchunk (by decide)⟩
    · subst hc
      exact ⟨by decide, by decide⟩
  · split at hdi
    · split at hdi
      · have hdi' := Except.ok.inj hdi
        subst hdi'
        intro c hc
        simp only [List.mem_append, List.mem_cons, List.not_mem_nil, or_false] at hc
        rcases hc with (hc | hc) | hc | hc | hc
        · subst hc
          exact ⟨by decide, by decide⟩
        · have hc := mem_of_ite_list hc
          rcases List.mem_singleton.mp hc with hc
          subst hc
          exact ⟨by decide, by decide⟩
        · subst hc
          exact ⟨str_ne_of_no_nl htp (by decide), str_ne_of_no_nl htp (by decide)⟩
        · subst hc
          exact ⟨str_ne_of_no_nl hcc (by decide), str_ne_of_no_nl hcc (by decide)⟩
        · subst hc
          exact ⟨by decide, by decide⟩
      · exact (Except.noConfusion hdi)
    · have hdi' := Except.ok.inj hdi
      subst hdi'
      intro c hc
      rcases List.mem_cons.mp hc with hc | hc
      · subst hc
        exact ⟨by decide, by decide⟩
      · rcases List.mem_cons.mp hc with hc | hc
        · subst hc
          exact ⟨str_ne_of_no_nl hcz (by decide), str_ne_of_no_nl hcz (by decide)⟩
        · rcases List.mem_singleton.mp hc with hc
          subst hc
          exact ⟨by decide, by decide⟩

theorem default_instance_return_ne {r : VHResult} {di : List String}
    (hdi : default_instance_return (some r) = .ok di) (htp : no_nl r.type_plain)
    (hcc : no_nl r.ctor_call) (hcz : no_nl r.cast_zero_str)
    (hic : ∀ c, r.instance_code = some c → c ≠ checkChunk ∧ c ≠ abortChunk) :
    ∀ c ∈ di, c ≠ checkChunk ∧ c ≠ abortChunk := by
  simp only [default_instance_return] at hdi
  by_cases hg : r.derefs = 0 ∧ (r.type = ArgumentType.CLASS ∨ r.type = ArgumentType.MAPPED)
  · rw [if_pos hg] at hdi
    cases hicase : r.instance_code with
    | none =>
        simp only [hicase] at hdi
        exact default_instance_return_fallthrough hdi htp hcc hcz
    | some code =>
      have hdi' := Except.ok.inj (hicase ▸ hdi)
      subst hdi'
      intro c hc
      rcases List.mem_cons.mp hc with hc | hc
      · subst hc
        have hN : ('N' : Char) ∈ ("    \x7b\n        static " ++ r.type_plain ++
            " *sipCpp = SIP_NULLPTR;\n\n        if (!sipCpp)\n        \x7b\n").data := by
          rw [String.data_append]
          exact List.mem_append_right _ (by decide)
        exact ⟨str_ne_of_mem hN (by decide), str_ne_of_mem hN (by decide)⟩
      · rcases List.mem_cons.mp hc with hc | hc
        · rw [hc]
          exact hic code hicase
        · rcases List.mem_singleton.mp hc with hc
          subst hc
          exact ⟨by decide, by decide⟩
  · rw [if_neg hg] at hdi
    exact default_instance_return_fallthrough hdi htp hcc hcz

theorem vhParseChunk_ne (h : VirtualHandlerModel) (fmt : VHFmt) :
    vhParseChunk h fmt ≠ checkChunk ∧ vhParseChunk h fmt ≠ abortChunk := by
  rw [vhParseChunk]
  exact ⟨str_ne_of_head rfl rfl (by decide), str_ne_of_head rfl rfl (by decide)⟩

theorem vhReturnRes_ne (h : VirtualHandlerModel) :
    ∀ c ∈ vhReturnRes h, c ≠ checkChunk ∧ c ≠ abortChunk := by
  intro c hc
  rw [vhReturnRes] at hc
  rcases List.mem_singleton.mp hc with hc
  rw [hc]
  have hu : ('u' : Char) ∈ ("\n    return " ++
      (if result_is_reference h.result then "*" else "") ++ "sipRes;\n").data := by
    rw [String.data_append, String.data_append]
    exact List.mem_append_left _ (List.mem_append_left _ (by decide))
  exact ⟨str_ne_of_mem hu (by decide), str_ne_of_mem hu (by decide)⟩

/-- C3: for a virtual handler with no `%VirtualCatcherCode` whose C++ result
must be returned, the generated handler body tests the value returned by
`sipParseResultEx` (the `int sipRc = ` capture followed by the chunk
`if (sipRc < 0)`) exactly when the result is a C++ reference or the handler
is configured to abort on exception; the test immediately follows the parse
call, which receives the module's virtual error handler (`sipErrorHandler`,
its second parameter, so the error-reporting path runs inside it before the
test); on a parse failure an abort-on-exception handler executes `abort();`
right after the test, and otherwise the best-effort default-instance
statements of `_default_instance_return` are placed right after the test. -/
theorem virtual_handler_parse_check (h : VirtualHandlerModel) (fmt : VHFmt)
    (out : List String) (hclean : vhOpaqueClean h fmt)
    (hcatch : h.virtual_catcher_code = none)
    (hret : result_is_returned h.result = true)
    (hok : virtual_handler h fmt = .ok out) :
    (checkChunk ∈ out ↔ vhCheck h = true) ∧
    (abortChunk ∈ out ↔ h.abort_on_exception = true) ∧
    (vhCheck h = true →
      ∃ pre post, out = pre ++ vhParseChunk h fmt :: checkChunk :: post) ∧
    ((vhParseParams h fmt)[1]? = some "sipErrorHandler") ∧
    (h.abort_on_exception = true →
      ∃ pre post, out = pre ++ checkChunk :: abortChunk :: post) ∧
    (h.abort_on_exception = false → vhCheck h = true →
      ∃ di, default_instance_return (some h.result) = .ok di ∧
        ∃ pre post, out = pre ++ checkChunk :: (di ++ post)) := by
  have hA := vhHead_ne h fmt
  have hB := vhResultSetup_ne h fmt hclean
  obtain ⟨htb, -, htp, hcc, hcz, hicode, -⟩ := hclean
  have hP := vhParseChunk_ne h fmt
  have hR := vhReturnRes_ne h
  have hnv : (if result_is_returned h.result then 1 else 0) +
      (h.py_args.filter (fun a => a.is_out)).length ≠ 0 := by
    rw [hret]
    simp
  cases hab : h.abort_on_exception with
  | true =>
      have hchk : vhCheck h = true := by rw [vhCheck, hab, Bool.or_true]
      have hvh : virtual_handler h fmt = .ok (vhHead h fmt ++ vhResultSetup h fmt ++
          ["    PyObject *sipResObj = sipCallMethod(SIP_NULLPTR, sipMethod, ",
           fmt.tuple_build, vhParseChunk h fmt] ++
          [checkChunk, abortChunk] ++ vhReturnRes h ++ ["\x7d\n"]) := by
        simp only [virtual_handler, hcatch]
        rw [if_neg hnv, if_pos hret, if_pos hchk, if_pos hab]
        rfl
      rw [hvh] at hok
      have hout := Except.ok.inj hok
      subst hout
      refine ⟨⟨fun _ => hchk, fun _ => ?_⟩, ⟨fun _ => rfl, fun _ => ?_⟩, fun _ => ?_,
        rfl, fun _ => ?_, fun hcon _ => Bool.noConfusion hcon⟩
      · exact List.mem_append_left _ (List.mem_append_left _
          (List.mem_append_right _ (by decide)))
      · exact List.mem_append_left _ (List.mem_append_left _
          (List.mem_append_right _ (by decide)))
      · exact ⟨vhHead h fmt ++ vhResultSetup h fmt ++
          ["    PyObject *sipResObj = sipCallMethod(SIP_NULLPTR, sipMethod, ",
           fmt.tuple_build],
          abortChunk :: (vhReturnRes h ++ ["\x7d\n"]), by simp⟩
      · exact ⟨vhHead h fmt ++ vhResultSetup h fmt ++
          ["    PyObject *sipResObj = sipCallMethod(SIP_NULLPTR, sipMethod, ",
           fmt.tuple_build, vhParseChunk h fmt],
          vhReturnRes h ++ ["\x7d\n"], by simp⟩
  | false =>
      cases href : result_is_reference h.result with
      | true =>
          have hchk : vhCheck h = true := by rw [vhCheck, href, Bool.true_or]
          cases hdi : default_instance_return (some h.result) with
          | error e =>
              have hvh : virtual_handler h fmt = .error e := by
                simp only [virtual_handler, hcatch]
                rw [if_neg hnv, if_pos hret, if_pos hchk, if_neg (by rw [hab]; exact
                  Bool.false_ne_true)]
                simp only [hdi]
              rw [hvh] at hok
              exact (Except.noConfusion hok)
          | ok di =>
              have hdichunks := default_instance_return_ne hdi htp hcc hcz hicode
              have hvh : virtual_handler h fmt = .ok (vhHead h fmt ++
                  vhResultSetup h fmt ++
                  ["    PyObject *sipResObj = sipCallMethod(SIP_NULLPTR, sipMethod, ",
                   fmt.tuple_build, vhParseChunk h fmt] ++
                  [checkChunk] ++ di ++ vhReturnRes h ++ ["\x7d\n"]) := by
                simp only [virtual_handler, hcatch]
                rw [if_neg hnv, if_pos hret, if_pos hchk, if_neg (by rw [hab]; exact
                  Bool.false_ne_true)]
                simp only [hdi]
                rfl
              rw [hvh] at hok
              have hout := Except.ok.inj hok
              subst hout
              have hnoabort : abortChunk ∉ (vhHead h fmt ++ vhResultSetup h fmt ++
                  ["    PyObject *sipResObj = sipCallMethod(SIP_NULLPTR, sipMethod, ",
                   fmt.tuple_build, vhParseChunk h fmt] ++
                  [checkChunk] ++ di ++ vhReturnRes h ++ ["\x7d\n"]) := by
                intro hmem
                simp only [List.mem_append, List.mem_cons, List.not_mem_nil,
                  or_false] at hmem
                rcases hmem with (((((hm | hm) | (hm | hm | hm)) | hm) | hm) | hm) | hm
                · exact (hA _ hm).2 rfl
                · exact (hB _ hm).2 rfl
                · exact absurd hm.symm (by decide)
                · exact str_ne_of_no_nl htb (by decide) hm.symm
                · exact hP.2 (hm.symm ▸ rfl)
                · exact absurd hm.symm (by decide)
                · exact (hdichunks _ hm).2 rfl
                · exact (hR _ hm).2 rfl
                · exact absurd hm.symm (by decide)
              refine ⟨⟨fun _ => hchk, fun _ => ?_⟩,
                ⟨fun hmem => absurd hmem hnoabort, fun hcon => Bool.noConfusion hcon⟩,
                fun _ => ?_, rfl, fun hcon => Bool.noConfusion hcon,
                fun _ _ => ?_⟩
              · exact List.mem_append_left _ (List.mem_append_left _
                  (List.mem_append_left _ (List.mem_append_right _ (by decide))))
              · exact ⟨vhHead h fmt ++ vhResultSetup h fmt ++
                  ["    PyObject *sipResObj = sipCallMethod(SIP_NULLPTR, sipMethod, ",
                   fmt.tuple_build],
                  di ++ (vhReturnRes h ++ ["\x7d\n"]), by simp⟩
              · exact ⟨di, rfl, vhHead h fmt ++ vhResultSetup h fmt ++
                  ["    PyObject *sipResObj = sipCallMethod(SIP_NULLPTR, sipMethod, ",
                   fmt.tuple_build, vhParseChunk h fmt],
                  vhReturnRes h ++ ["\x7d\n"], by simp⟩
      | false =>
          have hchk : vhCheck h = false := by rw [vhCheck, href, hab]; rfl
          have hvh : virtual_handler h fmt = .ok (vhHead h fmt ++
              vhResultSetup h fmt ++
              ["    PyObject *sipResObj = sipCallMethod(SIP_NULLPTR, sipMethod, ",
               fmt.tuple_build, vhParseChunk h fmt] ++
              vhReturnRes h ++ ["\x7d\n"]) := by
            simp only [virtual_handler, hcatch]
            rw [if_neg hnv, if_pos hret, if_neg (by rw [hchk]; exact
              Bool.false_ne_true)]
          rw [hvh] at hok
          have hout := Except.ok.inj hok
          subst hout
          have hnocheck : checkChunk ∉ (vhHead h fmt ++ vhResultSetup h fmt ++
              ["    PyObject *sipResObj = sipCallMethod(SIP_NULLPTR, sipMethod, ",
               fmt.tuple_build, vhParseChunk h fmt] ++
              vhReturnRes h ++ ["\x7d\n"]) := by
            intro hmem
            simp only [List.mem_append, List.mem_cons, List.not_mem_nil,
              or_false] at hmem
            rcases hmem with (((hm | hm) | (hm | hm | hm)) | hm) | hm
            · exact (hA _ hm).1 rfl
            · exact (hB _ hm).1 rfl
            · exact absurd hm.symm (by decide)
            · exact str_ne_of_no_nl htb (by decide) hm.symm
            · exact hP.1 (hm.symm ▸ rfl)
            · exact (hR _ hm).1 rfl
            · exact absurd hm.symm (by decide)
          have hnoabort : abortChunk ∉ (vhHead h fmt ++ vhResultSetup h fmt ++
              ["    PyObject *sipResObj = sipCallMethod(SIP_NULLPTR, sipMethod, ",
               fmt.tuple_build, vhParseChunk h fmt] ++
              vhReturnRes h ++ ["\x7d\n"]) := by
            intro hmem
            simp only [List.mem_append, List.mem_cons, List.not_mem_nil,
              or_false] at hmem
            rcases hmem with (((hm | hm) | (hm | hm | hm)) | hm) | hm
            · exact (hA _ hm).2 rfl
            · exact (hB _ hm).2 rfl
            · exact absurd hm.symm (by decide)
            · exact str_ne_of_no_nl htb (by decide) hm.symm
            · exact hP.2 (hm.symm ▸ rfl)
            · exact (hR _ hm).2 rfl
            · exact absurd hm.symm (by decide)
          exact ⟨⟨fun hmem => absurd hmem hnocheck,
              fun hcon => Bool.noConfusion (hchk.symm.trans hcon)⟩,
            ⟨fun hmem => absurd hmem hnoabort, fun hcon => Bool.noConfusion hcon⟩,
            fun hcon => Bool.noConfusion (hchk.symm.trans hcon), rfl,
            fun hcon => Bool.noConfusion hcon,
            fun _ hcon => Bool.noConfusion (hchk.symm.trans hcon)⟩

/-- The parse-check theorem instantiated at a concrete abort-on-exception
handler returning an `int`: the generated chunks contain the `if (sipRc < 0)`
test and the `abort();` statement. -/
theorem virtual_handler_parse_check_witness :
    vhOpaqueClean vhW vhFmtW ∧ virtual_handler vhW vhFmtW = .ok vhWOut ∧
    checkChunk ∈ vhWOut ∧ abortChunk ∈ vhWOut := by
  have hclean : vhOpaqueClean vhW vhFmtW :=
    ⟨by intro hm; exact absurd hm (by decide), by intro hm; exact absurd hm (by decide),
     by intro hm; exact absurd hm (by decide), by intro hm; exact absurd hm (by decide),
     by intro hm; exact absurd hm (by decide), fun c hc => Option.noConfusion hc,
     by decide⟩
  have hok : virtual_handler vhW vhFmtW = .ok vhWOut := rfl
  have hmain := virtual_handler_parse_check vhW vhFmtW vhWOut hclean rfl (by decide) hok
  exact ⟨hclean, hok, hmain.1.mpr (by decide), hmain.2.1.mpr rfl⟩

end Sip
